import Mathlib

/-!
VMX capability reporting: `cmpe283-1.c`.

A shallow embedding of `src/cmpe283/cmpe283-1.c`.

* C strings are `String`s; a `const char *` may be the null pointer, so a
  name is an `Option String`.
* `uint8_t`, `uint32_t` and `uint64_t` values are natural numbers, reduced
  modulo `2^8`, `2^32`, `2^64` wherever the C code can wrap; `int` values are
  integers wrapped to two's complement.
* An access past the end of an array, and a buffer read as a string without
  its NUL, are `Fault`s. A shift by a count of 32 or more, for which C
  defines no result, gives what the x86 shift instruction gives.
* The kernel log and the register reads are a trace of `Event`s.
-/

namespace Cmpe283

/-! ## Data model -/

/-- The C `struct capability_info`: a bit number (`uint8_t`) and a
description (`const char *`, `none` being the null pointer). -/
structure capability_info where
  bit : Nat
  name : Option String
  deriving DecidableEq

/-- What the C code can do that has no defined result. -/
inductive Fault where
  /-- an access `cap[i]` past the end of the array -/
  | out_of_bounds (i : Nat)
  /-- a character buffer read as a string without a terminating NUL -/
  | unterminated
  /-- a conversion specification without a matching argument -/
  | bad_format
  /-- the loop model ran out of fuel -/
  | fuel
  deriving DecidableEq

/-- One observable action: a read of a model specific register, or a call
of `printk` with a log level marker (`some 6` is `KERN_INFO`, `none` is no
marker), a format string and the values for its conversions. -/
inductive Event where
  | rdmsr (msr : Nat)
  | printk (level : Option Nat) (fmt : String) (args : List Nat)
  deriving DecidableEq

deriving instance DecidableEq for Except

/-- `#define MAX_MSG 80` -/
def MAX_MSG : Nat := 80

/-- `#define IA32_VMX_PINBASED_CTLS 0x481` -/
def IA32_VMX_PINBASED_CTLS : Nat := 0x481
/-- `#define IA32_VMX_PROCBASED_CTLS 0x482` -/
def IA32_VMX_PROCBASED_CTLS : Nat := 0x482
/-- `#define IA32_VMX_PROCBASED_CTLS2 0x48B` -/
def IA32_VMX_PROCBASED_CTLS2 : Nat := 0x48B
/-- `#define IA32_VMX_EXIT_CTLS 0x483` -/
def IA32_VMX_EXIT_CTLS : Nat := 0x483
/-- `#define IA32_VMX_ENTRY_CTLS 0x484` -/
def IA32_VMX_ENTRY_CTLS : Nat := 0x484

/-- A C array `struct capability_info t[n] = { ... }`: the initialisers in
order, and every slot they leave over zero-filled (bit 0, null name). -/
def c_array (n : Nat) (init : List capability_info) : List capability_info :=
  init ++ List.replicate (n - init.length) ⟨0, none⟩

/-- `struct capability_info vmentry_controls[9]` -/
def vmentry_controls : List capability_info :=
  c_array 9
    [ ⟨2, some "Load Debug Controls"⟩,
      ⟨9, some "IA-32e Mode Guest"⟩,
      ⟨10, some "Entry to SMM"⟩,
      ⟨11, some "Deactivate Dual-Monitor Treatment"⟩,
      ⟨12, some "Load IA32_PERF_GLOBAL_CTRL"⟩,
      ⟨14, some "Load IA32_PAT"⟩,
      ⟨15, some "Load IA32_EFER"⟩,
      ⟨16, some "Load IA32_BNDCFGS"⟩,
      ⟨17, some "Conceal VMX from PT"⟩ ]

/-- `struct capability_info vmexit_controls[11]` -/
def vmexit_controls : List capability_info :=
  c_array 11
    [ ⟨1, some "Save Debug Controls"⟩,
      ⟨2, some "Host Address-Space Size"⟩,
      ⟨9, some "Load IA32_PERF_GLOBAL_CTRL"⟩,
      ⟨12, some "Acknowledge Interrupt on Exit"⟩,
      ⟨15, some "Save IA32_PAT"⟩,
      ⟨18, some "Load IA32_PAT"⟩,
      ⟨19, some "Save IA32_EFER"⟩,
      ⟨20, some "Load IA32_EFER"⟩,
      ⟨21, some "Save VMX Preemption Timer"⟩,
      ⟨22, some "Clear IA32_BNDCFGS"⟩,
      ⟨23, some "Conceal VMX from PT"⟩ ]

/-- `struct capability_info procbased2[9]` -/
def procbased2 : List capability_info :=
  c_array 9
    [ ⟨0, some "Virtualize APIC Accesses"⟩,
      ⟨1, some "Enable EPT"⟩,
      ⟨2, some "Descriptor-table Exiting"⟩,
      ⟨3, some "Enable RDTSCP"⟩,
      ⟨4, some "Virtualize x2APIC Mode"⟩,
      ⟨5, some "Enable VPID"⟩,
      ⟨6, some "WBINVD Exiting"⟩,
      ⟨7, some "Unrestricted Guest"⟩,
      ⟨8, some "APIC Register Virtualization"⟩ ]

/-- `struct capability_info procbased[6]` -/
def procbased : List capability_info :=
  c_array 6
    [ ⟨2, some "Interrupt Window Exiting"⟩,
      ⟨3, some "Use TSC Offsetting"⟩,
      ⟨7, some "HLT Exiting"⟩,
      ⟨9, some "INVLPG Exiting"⟩,
      ⟨10, some "MWAIT Exiting"⟩,
      ⟨11, some "RDPMC Exiting"⟩ ]

/-- `struct capability_info pinbased[5]` -/
def pinbased : List capability_info :=
  c_array 5
    [ ⟨0, some "External Interrupt Exiting"⟩,
      ⟨3, some "NMI Exiting"⟩,
      ⟨5, some "Virtual NMIs"⟩,
      ⟨6, some "Activate VMX Preemption Timer"⟩,
      ⟨7, some "Process Posted Interrupts"⟩ ]

/-- The bit positions that the Intel SDM assigns, in the pin-based
VM-execution controls, to the five controls named in `pinbased`, in the
order of the table. -/
def sdm_pinbased_bits : List Nat := [0, 3, 5, 6, 7]

/-- The bit positions that the Intel SDM assigns, in the primary
processor-based VM-execution controls, to the six controls named in
`procbased`, in the order of the table. -/
def sdm_procbased_bits : List Nat := [2, 3, 7, 9, 10, 11]

/-- The bit positions that the Intel SDM assigns, in the secondary
processor-based VM-execution controls, to the nine controls named in
`procbased2`, in the order of the table. -/
def sdm_procbased2_bits : List Nat := [0, 1, 2, 3, 4, 5, 6, 7, 8]

/-- The bit positions that the Intel SDM assigns, in the VM-exit controls,
to the eleven controls named in `vmexit_controls`, in the order of the
table: save debug controls 2, host address-space size 9, load
IA32_PERF_GLOBAL_CTRL 12, acknowledge interrupt on exit 15, save IA32_PAT
18, load IA32_PAT 19, save IA32_EFER 20, load IA32_EFER 21, save
VMX-preemption timer value 22, clear IA32_BNDCFGS 23, conceal VMX from PT
24. -/
def sdm_vmexit_bits : List Nat := [2, 9, 12, 15, 18, 19, 20, 21, 22, 23, 24]

/-- The bit positions that the Intel SDM assigns, in the VM-entry controls,
to the nine controls named in `vmentry_controls`, in the order of the
table: load debug controls 2, IA-32e mode guest 9, entry to SMM 10,
deactivate dual-monitor treatment 11, load IA32_PERF_GLOBAL_CTRL 13, load
IA32_PAT 14, load IA32_EFER 15, load IA32_BNDCFGS 16, conceal VMX from PT
17. -/
def sdm_vmentry_bits : List Nat := [2, 9, 10, 11, 13, 14, 15, 16, 17]

/-! ## Integer arithmetic of the C code -/

/-- An integer wrapped to the 32-bit two's complement range of `int`. -/
def wrap_int (z : Int) : Int := (z + 2 ^ 31) % 2 ^ 32 - 2 ^ 31

/-- `a << n` on `int`, as the code runs. The module is x86 code (it reads
the VMX registers with `rdmsr`), and the x86 shift of a 32-bit operand
takes its count modulo 32: that is the result for a count of 32 or more,
where C defines none. A result that does not fit wraps, as the kernel is
built (`-fno-strict-overflow`). -/
def shl_int (a : Int) (n : Nat) : Int := wrap_int (a * 2 ^ (n % 32))

/-- Conversion of an `int` to `uint32_t`: reduction modulo `2^32`. -/
def to_uint32 (z : Int) : Nat := (z % 2 ^ 32).toNat

/-- The operand `(1 << c->bit)` as the `&` with a `uint32_t` sees it: the
`int` result converted to `uint32_t`. -/
def bit_mask (bit : Nat) : Nat := to_uint32 (shl_int 1 bit)

/-- `(uint64_t)(lo | (uint64_t)hi << 32)`: `hi` is widened to 64 bits and
shifted there, `lo` is widened for the `|`. -/
def msr_value (lo hi : Nat) : Nat := (lo ||| (hi * 2 ^ 32) % 2 ^ 64) % 2 ^ 64

/-! ## Formatting -/

/-- The NUL character that ends a C string. -/
def NUL : Char := Char.ofNat 0

/-- The characters of a C string: those before the first NUL. -/
def c_str (s : String) : List Char := s.data.takeWhile (fun c => c != NUL)

/-- The ternaries `... ? "Yes" : "No"`. -/
def yes_no (b : Bool) : List Char := if b then "Yes".data else "No".data

/-- Modelled from the spec: the `%s` conversion of the kernel formatter,
which is not under src/. It writes the characters of the C string, and
`(null)` for a null pointer. -/
def fmt_s : Option String → List Char
  | none => "(null)".data
  | some s => c_str s

/-- The complete expansion of `"  %s: Can set=%s, Can clear=%s\n"`. -/
def format_line (name : Option String) (can_set can_clear : Bool) : List Char :=
  "  ".data ++ fmt_s name ++ ": Can set=".data ++ yes_no can_set
    ++ ", Can clear=".data ++ yes_no can_clear ++ "\n".data

/-- Modelled from the spec: `snprintf(buf, size, ...)` of the kernel, which
is not under src/ (the spec: a bounded formatter that silently truncates).
Given the complete expansion `out`, it stores at most `size - 1` characters
of it and a NUL after them, and leaves the rest of `buf` as it was. -/
def snprintf (buf : List Char) (size : Nat) (out : List Char) : List Char :=
  if size = 0 then buf
  else
    let written := out.take (size - 1) ++ [NUL]
    written ++ buf.drop written.length

/-- `memset(msg, 0, sizeof(msg))` on a buffer of `n` characters. -/
def memset_zero (n : Nat) : List Char := List.replicate n NUL

/-- The C string held in a character buffer; there is none when the buffer
has no NUL. -/
def buf_str (buf : List Char) : Except Fault String :=
  if NUL ∈ buf then .ok (String.mk (buf.takeWhile (fun c => c != NUL)))
  else .error .unterminated

/-- One digit of `%llx`. -/
def hex_digit (d : Nat) : Char := "0123456789abcdef".data.getD d '0'

/-- Hexadecimal digits of `n`, most significant first, by repeated
division; `fuel` bounds the number of digits. -/
def hex_core : Nat → Nat → List Char
  | 0, _ => []
  | fuel + 1, n =>
    if n < 16 then [hex_digit n]
    else hex_core fuel (n / 16) ++ [hex_digit (n % 16)]

/-- Modelled from the spec: the `%llx` conversion of the kernel formatter,
which is not under src/ (the spec: the 64-bit register value formatted as
hexadecimal). A 64-bit value has at most 16 digits. -/
def fmt_llx (v : Nat) : List Char := hex_core 16 (v % 2 ^ 64)

/-- Modelled from the spec: the text `printk` logs for a format string and
its arguments; `printk` is not under src/. Ordinary characters are copied,
`%llx` takes the next argument, `%%` is a percent sign, and a conversion
with no argument to take has no defined result. -/
def render : List Char → List Nat → Except Fault (List Char)
  | [], _ => .ok []
  | '%' :: 'l' :: 'l' :: 'x' :: rest, a :: args =>
    (render rest args).map (fun t => fmt_llx a ++ t)
  | '%' :: '%' :: rest, args => (render rest args).map (fun t => '%' :: t)
  | '%' :: _, _ => .error .bad_format
  | c :: rest, args => (render rest args).map (fun t => c :: t)

/-- The text an event leaves in the log, if it is a `printk`. -/
def Event.text : Event → Option (Except Fault String)
  | .rdmsr _ => none
  | .printk _ fmt args => some ((render fmt.data args).map String.mk)

/-! ## report_capability -/

/-- The condition `(hi & (1 << c->bit))` of the first ternary: whether the
entry's control can be set. -/
def can_set (c : capability_info) (hi : Nat) : Bool := hi &&& bit_mask c.bit != 0

/-- The condition `!(lo & (1 << c->bit))` of the second ternary: whether
the entry's control can be cleared. -/
def can_clear (c : capability_info) (lo : Nat) : Bool := lo &&& bit_mask c.bit == 0

/-- The body of the loop of `report_capability` for the entry `c`: format
into `msg` with `snprintf(msg, 79, ...)`, then `printk(msg)`. Returns the
buffer as it is left and the `printk` call made. -/
def report_entry (c : capability_info) (lo hi : Nat) (msg : List Char) :
    Except Fault (List Char × Event) :=
  let msg1 := snprintf msg 79 (format_line c.name (can_set c hi) (can_clear c lo))
  match buf_str msg1 with
  | .error f => .error f
  | .ok text => .ok (msg1, .printk none text [])

/-- The loop `for (i = 0; i < len; i++)` with the `uint8_t` counter `i`. -/
def report_loop (cap : List capability_info) (len lo hi : Nat) :
    Nat → Nat → List Char → Except Fault (List Event)
  | 0, _, _ => .error .fuel
  | fuel + 1, i, msg =>
    if i < len then
      match cap[i]? with
      | none => .error (.out_of_bounds i)
      | some c =>
        match report_entry c lo hi msg with
        | .error f => .error f
        | .ok (msg1, ev) =>
          match report_loop cap len lo hi fuel ((i + 1) % 256) msg1 with
          | .error f => .error f
          | .ok evs => .ok (ev :: evs)
    else .ok []

/-- The C function `report_capability(cap, len, lo, hi)`: the `printk`
calls it makes, in order. The counter takes at most 256 values, so 257
tests of the loop condition are all a terminating run can make. -/
def report_capability (cap : List capability_info) (len lo hi : Nat) :
    Except Fault (List Event) :=
  report_loop cap len lo hi 257 0 (memset_zero MAX_MSG)

/-! ## detect_vmx_features -/

/-- Modelled from the spec: the kernel's `rdmsr(msr, lo, hi)`, which is not
under src/ (the spec: the register-access provider returns a
64-bit value as a low and a high 32-bit half). `regs` gives each register
its 64-bit value. -/
def rdmsr (regs : Nat → Nat) (msr : Nat) : Nat × Nat :=
  (regs msr % 2 ^ 32, regs msr / 2 ^ 32 % 2 ^ 32)

/-- One domain of `detect_vmx_features`: `rdmsr`, the `pr_info` header
(a `printk` at `KERN_INFO`), then `report_capability`. -/
def detect_domain (regs : Nat → Nat) (msr : Nat) (header : String)
    (cap : List capability_info) (len : Nat) : Except Fault (List Event) :=
  let lohi := rdmsr regs msr
  match report_capability cap len lohi.1 lohi.2 with
  | .error f => .error f
  | .ok evs =>
    .ok (.rdmsr msr :: .printk (some 6) header [msr_value lohi.1 lohi.2] :: evs)

/-- The C function `detect_vmx_features`. -/
def detect_vmx_features (regs : Nat → Nat) : Except Fault (List Event) := do
  let e1 ← detect_domain regs IA32_VMX_PINBASED_CTLS
    "Pinbased Controls MSR: 0x%llx\n" pinbased 5
  let e2 ← detect_domain regs IA32_VMX_PROCBASED_CTLS
    "Procbased Controls MSR: 0x%llx\n" procbased 6
  let e3 ← detect_domain regs IA32_VMX_PROCBASED_CTLS2
    "Procbased 2 Controls MSR: 0x%llx\n" procbased2 9
  let e4 ← detect_domain regs IA32_VMX_EXIT_CTLS
    "VM exit Controls MSR: 0x%llx\n" vmexit_controls 11
  let e5 ← detect_domain regs IA32_VMX_ENTRY_CTLS
    "VM Entry Controls MSR: 0x%llx\n" vmentry_controls 9
  pure (e1 ++ e2 ++ e3 ++ e4 ++ e5)

/-! ## Module entry and exit -/

/-- The C function `init_module`: `printk(KERN_INFO "... Module Start\n")`,
one call of `detect_vmx_features`, `return 0`. Gives the value returned and
the trace. -/
def init_module (regs : Nat → Nat) : Except Fault (Int × List Event) :=
  match detect_vmx_features regs with
  | .error f => .error f
  | .ok evs => .ok (0, .printk (some 6) "CMPE 283 Assignment 1 Module Start\n" [] :: evs)

/-- The C function `cleanup_module`: `printk(KERN_INFO "... Module Exits\n")`. -/
def cleanup_module : List Event :=
  [.printk (some 6) "CMPE 283 Assignment 1 Module Exits\n" []]

/-! ## Vocabulary of the statements -/

/-- The complete line of an entry named `name`, its newline included:
`"  <name>: Can set=<Yes|No>, Can clear=<Yes|No>\n"`. -/
def full_line (name : List Char) (s cl : Bool) : String :=
  String.mk ("  ".data ++ name ++ ": Can set=".data ++ yes_no s
    ++ ", Can clear=".data ++ yes_no cl ++ "\n".data)

/-- What `snprintf(msg, 79, ...)` leaves of an entry's line: its first 78
characters, with the Yes/No answers read off bit `c.bit` of `hi` and of
`lo`. -/
def entry_text (c : capability_info) (lo hi : Nat) : String :=
  String.mk ((format_line c.name (hi.testBit c.bit) (!lo.testBit c.bit)).take 78)

/-- The entry whose bit index is that of `c` modulo 32: the bit that the
shift of `c` reaches. It is `c` itself when the bit index is in [0,31]. -/
def mod32_entry (c : capability_info) : capability_info := ⟨c.bit % 32, c.name⟩

/-- The `printk` call for an entry. -/
def entry_event (c : capability_info) (lo hi : Nat) : Event :=
  .printk none (entry_text c lo hi) []

/-- Whether an event is a `printk` call. -/
def Event.is_printk : Event → Bool
  | .printk _ _ _ => true
  | .rdmsr _ => false

/-- Whether an event is a `printk` call at `KERN_INFO`, as `pr_info` makes. -/
def Event.is_info : Event → Bool
  | .printk (some 6) _ _ => true
  | _ => false

/-- The lines of a trace: its `printk` calls, in order. -/
def printk_events (evs : List Event) : List Event := evs.filter Event.is_printk

/-- The header of a domain: `pr_info(fmt, (uint64_t)(lo | (uint64_t)hi << 32))`. -/
def header_event (fmt : String) (lohi : Nat × Nat) : Event :=
  .printk (some 6) fmt [msr_value lohi.1 lohi.2]

/-- The value of a character as a hexadecimal digit. -/
def hex_digit_value (c : Char) : Nat := "0123456789abcdef".data.indexOf c

/-- The number a string of hexadecimal digits denotes, most significant
digit first. -/
def hex_value (ds : List Char) : Nat :=
  ds.foldl (fun acc c => acc * 16 + hex_digit_value c) 0

/-- The line of an entry without its newline:
`"  <name>: Can set=<Yes|No>, Can clear=<Yes|No>"`. -/
def bare_line (name : List Char) (s cl : Bool) : List Char :=
  "  ".data ++ name ++ ": Can set=".data ++ yes_no s ++ ", Can clear=".data ++ yes_no cl

/-- The `printk` call that passes the complete line of an entry. -/
def complete_event (c : capability_info) (lo hi : Nat) : Event :=
  .printk none (full_line (fmt_s c.name) (hi.testBit c.bit) (!lo.testBit c.bit)) []

/-- The register an event reads, if it is a register read. -/
def Event.msr : Event → Option Nat
  | .rdmsr msr => some msr
  | .printk _ _ _ => none

/-- The register reads of a trace, in order. -/
def rdmsr_events (evs : List Event) : List Nat := evs.filterMap Event.msr

/-- Whether an event is a `printk` call that passes its text as the format
string, with no level marker and no argument, as `report_capability` makes. -/
def Event.is_report : Event → Bool
  | .printk none _ [] => true
  | _ => false

/-- The five static tables, in the order `detect_vmx_features` reports them. -/
def all_tables : List (List capability_info) :=
  [pinbased, procbased, procbased2, vmexit_controls, vmentry_controls]

/-! ## Helper lemmas -/

theorem bit_mask_eq (bit : Nat) : bit_mask bit = 2 ^ (bit % 32) := by
  have hk : bit % 32 < 32 := Nat.mod_lt _ (by decide)
  unfold bit_mask shl_int
  generalize bit % 32 = k at hk
  interval_cases k <;> rfl

theorem bit_mask_of_lt {bit : Nat} (h : bit < 32) : bit_mask bit = 2 ^ bit := by
  rw [bit_mask_eq, Nat.mod_eq_of_lt h]

theorem land_two_pow_ne_zero (x b : Nat) : (x &&& 2 ^ b != 0) = x.testBit b := by
  by_cases h : x.testBit b
  · have hb : (x &&& 2 ^ b).testBit b = true := by
      simp [Nat.testBit_and, h, Nat.testBit_two_pow_self]
    have hne : x &&& 2 ^ b ≠ 0 := by
      intro h0; rw [h0] at hb; simp at hb
    simp [h, hne]
  · have hz : x &&& 2 ^ b = 0 := by
      apply Nat.eq_of_testBit_eq
      intro i
      by_cases hi : b = i
      · subst hi; simp [h]
      · simp [Nat.testBit_two_pow_of_ne hi]
    simp [h, hz]

theorem land_two_pow_eq_zero (x b : Nat) : (x &&& 2 ^ b == 0) = !x.testBit b := by
  have h := land_two_pow_ne_zero x b
  rw [← h]
  cases hc : (x &&& 2 ^ b == 0) <;> simp_all [bne]

theorem can_set_eq (c : capability_info) (hi : Nat) :
    can_set c hi = hi.testBit (c.bit % 32) := by
  simp only [can_set, bit_mask_eq, land_two_pow_ne_zero]

theorem can_clear_eq (c : capability_info) (lo : Nat) :
    can_clear c lo = !lo.testBit (c.bit % 32) := by
  simp only [can_clear, bit_mask_eq, land_two_pow_eq_zero]

theorem can_set_of_lt (c : capability_info) (hi : Nat) (h : c.bit < 32) :
    can_set c hi = hi.testBit c.bit := by
  rw [can_set_eq, Nat.mod_eq_of_lt h]

theorem can_clear_of_lt (c : capability_info) (lo : Nat) (h : c.bit < 32) :
    can_clear c lo = !lo.testBit c.bit := by
  rw [can_clear_eq, Nat.mod_eq_of_lt h]

theorem mod32_entry_of_lt (c : capability_info) (h : c.bit < 32) : mod32_entry c = c := by
  cases c with
  | mk bit name =>
    simp only [mod32_entry]
    rw [Nat.mod_eq_of_lt h]

theorem NUL_not_mem_c_str (s : String) : NUL ∉ c_str s := by
  intro h
  have hp := List.mem_takeWhile_imp h
  simp at hp

theorem NUL_not_mem_fmt_s (name : Option String) : NUL ∉ fmt_s name := by
  cases name with
  | none => decide
  | some s => exact NUL_not_mem_c_str s

theorem NUL_not_mem_yes_no (b : Bool) : NUL ∉ yes_no b := by
  cases b <;> decide

theorem NUL_not_mem_format_line (name : Option String) (s c : Bool) :
    NUL ∉ format_line name s c := by
  have h1 := NUL_not_mem_fmt_s name
  have h2 := NUL_not_mem_yes_no s
  have h3 := NUL_not_mem_yes_no c
  have h4 : NUL ∉ "  ".data := by decide
  have h5 : NUL ∉ ": Can set=".data := by decide
  have h6 : NUL ∉ ", Can clear=".data := by decide
  have h7 : NUL ∉ "\n".data := by decide
  simp only [format_line, List.mem_append, not_or]
  exact ⟨⟨⟨⟨⟨⟨h4, h1⟩, h5⟩, h2⟩, h6⟩, h3⟩, h7⟩

theorem takeWhile_append_NUL (out rest : List Char) (h : NUL ∉ out) :
    (out ++ NUL :: rest).takeWhile (fun c => c != NUL) = out := by
  induction out with
  | nil => simp [List.takeWhile]
  | cons a t ih =>
    have ha : a ≠ NUL := fun e => h (by simp [e])
    have ht : NUL ∉ t := fun e => h (by simp [e])
    have hb : (a != NUL) = true := by simp [ha]
    simp [List.takeWhile, hb, ih ht]

/-- Reading back what `snprintf(msg, 79, ...)` stored gives the first 78
characters of the expansion, whatever the buffer held before. -/
theorem buf_str_snprintf (buf out : List Char) (h : NUL ∉ out) :
    buf_str (snprintf buf 79 out) = .ok (String.mk (out.take 78)) := by
  have ht : NUL ∉ out.take 78 := fun e => h (List.mem_of_mem_take e)
  have hs : snprintf buf 79 out
      = out.take 78 ++ NUL :: buf.drop (out.take 78 ++ [NUL]).length := by
    simp [snprintf]
  rw [hs]
  unfold buf_str
  rw [if_pos (by simp), takeWhile_append_NUL _ _ ht]

/-- The loop body on any entry: the line is formatted with the answers of
bit `c.bit mod 32`, and the call of `printk` is made. -/
theorem report_entry_eq (c : capability_info) (lo hi : Nat) (msg : List Char) :
    report_entry c lo hi msg
      = .ok (snprintf msg 79
          (format_line c.name (hi.testBit (c.bit % 32)) (!lo.testBit (c.bit % 32))),
          entry_event (mod32_entry c) lo hi) := by
  unfold report_entry
  rw [can_set_eq c hi, can_clear_eq c lo]
  simp only
  rw [buf_str_snprintf _ _ (NUL_not_mem_format_line _ _ _)]
  rfl

theorem report_entry_of_lt (c : capability_info) (lo hi : Nat) (msg : List Char)
    (h : c.bit < 32) :
    report_entry c lo hi msg
      = .ok (snprintf msg 79 (format_line c.name (hi.testBit c.bit) (!lo.testBit c.bit)),
          entry_event c lo hi) := by
  rw [report_entry_eq, mod32_entry_of_lt c h, Nat.mod_eq_of_lt h]

theorem report_loop_all (cap : List capability_info) (len lo hi : Nat)
    (hlen : len ≤ cap.length) (h255 : len ≤ 255) :
    ∀ (fuel i : Nat) (msg : List Char), i ≤ len → len - i < fuel →
      report_loop cap len lo hi fuel i msg
        = .ok (((cap.take len).drop i).map (fun c => entry_event (mod32_entry c) lo hi)) := by
  intro fuel
  induction fuel with
  | zero => intro i msg _ h; omega
  | succ fuel ih =>
    intro i msg hle hf
    unfold report_loop
    by_cases hlt : i < len
    · have hic : i < cap.length := by omega
      have hit : i < (cap.take len).length := by simp; omega
      have hget : (cap.take len)[i] = cap[i] := by simp
      rw [if_pos hlt, List.getElem?_eq_getElem hic]
      simp only
      rw [report_entry_eq]
      simp only
      have hmod : (i + 1) % 256 = i + 1 := Nat.mod_eq_of_lt (by omega)
      rw [hmod, ih (i + 1) _ (by omega) (by omega)]
      simp only
      rw [List.drop_eq_getElem_cons hit, hget]
      rfl
    · have hil : i = len := by omega
      subst hil
      rw [if_neg hlt]
      simp

/-- On every table `report_capability` runs to the end and makes one
`printk` call for each of the first `len` entries, in table order. -/
theorem report_capability_all (cap : List capability_info) (len lo hi : Nat)
    (hlen : len ≤ cap.length) (h255 : len ≤ 255) :
    report_capability cap len lo hi
      = .ok ((cap.take len).map (fun c => entry_event (mod32_entry c) lo hi)) := by
  unfold report_capability
  rw [report_loop_all cap len lo hi hlen h255 257 0 _ (by omega) (by omega)]
  simp

/-- On a table whose first `len` entries have their bit index below 32,
`report_capability` runs to the end and makes one `printk` call for each of
these entries, in table order. -/
theorem report_capability_ok (cap : List capability_info) (len lo hi : Nat)
    (hlen : len ≤ cap.length) (h255 : len ≤ 255)
    (hbits : ∀ c ∈ cap.take len, c.bit < 32) :
    report_capability cap len lo hi
      = .ok ((cap.take len).map (fun c => entry_event c lo hi)) := by
  rw [report_capability_all cap len lo hi hlen h255]
  congr 1
  apply List.map_congr_left
  intro c hc
  rw [mod32_entry_of_lt c (hbits c hc)]

theorem format_line_length (name : Option String) (s cl : Bool) :
    (format_line name s cl).length ≤ (fmt_s name).length + 31 := by
  cases s <;> cases cl <;> simp [format_line, yes_no]

theorem full_line_eq (nm : String) (s cl : Bool) :
    full_line (c_str nm) s cl = String.mk (format_line (some nm) s cl) := rfl

/-- The line of a name of at most 47 characters has, with its newline, at
most 78 characters. -/
theorem full_line_length_le (nm : String) (s cl : Bool) (h : (c_str nm).length ≤ 47) :
    (full_line (c_str nm) s cl).length ≤ 78 := by
  have hl := format_line_length (some nm) s cl
  have hf : fmt_s (some nm) = c_str nm := rfl
  rw [hf] at hl
  rw [full_line_eq, String.length_mk]
  omega

/-- An entry whose line with its newline has at most 78 characters is
logged whole. -/
theorem entry_text_of_fits (c : capability_info) (nm : String) (lo hi : Nat)
    (hn : c.name = some nm)
    (hfit : (full_line (c_str nm) (hi.testBit c.bit) (!lo.testBit c.bit)).length ≤ 78) :
    entry_text c lo hi = full_line (c_str nm) (hi.testBit c.bit) (!lo.testBit c.bit) := by
  rw [full_line_eq, String.length_mk] at hfit
  unfold entry_text
  rw [hn, List.take_of_length_le hfit, full_line_eq]

theorem testBit_31_of_lt (x : Nat) (h : x < 2 ^ 32) :
    x.testBit 31 = decide (2 ^ 31 ≤ x) := by
  have hx : x < 4294967296 := by simpa using h
  have key : x / 2147483648 % 2 = 1 ↔ 2147483648 ≤ x := by omega
  rw [Nat.testBit_to_div_mod]
  norm_num
  exact key

theorem testBit_0_eq (x : Nat) : x.testBit 0 = decide (x % 2 = 1) := by
  rw [Nat.testBit_to_div_mod]; simp

theorem not_testBit_31_of_lt (x : Nat) (h : x < 2 ^ 32) :
    (!x.testBit 31) = decide (x < 2 ^ 31) := by
  rw [testBit_31_of_lt x h]
  by_cases hc : 2 ^ 31 ≤ x
  · have hn : ¬ x < 2 ^ 31 := Nat.not_lt.mpr hc
    rw [decide_eq_true hc, decide_eq_false hn]; rfl
  · have hn : x < 2 ^ 31 := Nat.lt_of_not_le hc
    rw [decide_eq_false hc, decide_eq_true hn]; rfl

theorem not_testBit_0_eq (x : Nat) : (!x.testBit 0) = decide (x % 2 = 0) := by
  rw [testBit_0_eq]
  rcases Nat.mod_two_eq_zero_or_one x with h | h <;> simp [h]

theorem testBit_all_ones (b : Nat) (h : b < 32) : (0xFFFFFFFF : Nat).testBit b = true := by
  have : (0xFFFFFFFF : Nat) = 2 ^ 32 - 1 := by norm_num
  rw [this, Nat.testBit_two_pow_sub_one]
  simp [h]

theorem entry_text_eq (c : capability_info) (lo hi : Nat) (s cl : Bool)
    (hs : hi.testBit c.bit = s) (hcl : (!lo.testBit c.bit) = cl) :
    entry_event c lo hi = .printk none (String.mk ((format_line c.name s cl).take 78)) [] := by
  subst hs; subst hcl; rfl

theorem msr_value_eq (lo hi : Nat) (hlo : lo < 2 ^ 32) (hhi : hi < 2 ^ 32) :
    msr_value lo hi = hi * 2 ^ 32 + lo := by
  have h1 : hi * 2 ^ 32 < 2 ^ 64 := by
    have : hi * 2 ^ 32 < 2 ^ 32 * 2 ^ 32 := Nat.mul_lt_mul_of_pos_right hhi (by norm_num)
    calc hi * 2 ^ 32 < 2 ^ 32 * 2 ^ 32 := this
      _ = 2 ^ 64 := by norm_num
  have h2 : lo ||| hi * 2 ^ 32 = hi * 2 ^ 32 + lo := by
    rw [Nat.or_comm, Nat.mul_comm hi, ← Nat.mul_add_lt_is_or hlo hi]
  have h3 : hi * 2 ^ 32 + lo < 2 ^ 64 := by
    have e : (2 : Nat) ^ 64 = 2 ^ 32 * 2 ^ 32 := by norm_num
    have hhi1 : hi + 1 ≤ 2 ^ 32 := hhi
    calc hi * 2 ^ 32 + lo < hi * 2 ^ 32 + 2 ^ 32 := by omega
      _ = (hi + 1) * 2 ^ 32 := by ring
      _ ≤ 2 ^ 32 * 2 ^ 32 := Nat.mul_le_mul_right _ hhi1
      _ = 2 ^ 64 := e.symm
  unfold msr_value
  rw [Nat.mod_eq_of_lt h1, h2, Nat.mod_eq_of_lt h3]

theorem msr_value_rdmsr (regs : Nat → Nat) (msr : Nat) :
    msr_value (rdmsr regs msr).1 (rdmsr regs msr).2 = regs msr % 2 ^ 64 := by
  have hlo : (rdmsr regs msr).1 < 2 ^ 32 := Nat.mod_lt _ (by norm_num)
  have hhi : (rdmsr regs msr).2 < 2 ^ 32 := Nat.mod_lt _ (by norm_num)
  rw [msr_value_eq _ _ hlo hhi]
  simp only [rdmsr]
  norm_num
  omega

theorem hex_digit_value_hex_digit (d : Nat) (h : d < 16) :
    hex_digit_value (hex_digit d) = d := by
  interval_cases d <;> rfl

theorem hex_digit_mem (d : Nat) (h : d < 16) : hex_digit d ∈ "0123456789abcdef".data := by
  interval_cases d <;> decide

theorem hex_digit_ne_zero (d : Nat) (h0 : 0 < d) (h : d < 16) : hex_digit d ≠ '0' := by
  interval_cases d <;> decide

theorem hex_value_concat (l : List Char) (c : Char) :
    hex_value (l ++ [c]) = hex_value l * 16 + hex_digit_value c := by
  simp [hex_value, List.foldl_append]

theorem hex_value_hex_core : ∀ (fuel n : Nat), n < 16 ^ fuel →
    hex_value (hex_core fuel n) = n := by
  intro fuel
  induction fuel with
  | zero => intro n h; simp at h; subst h; rfl
  | succ f ih =>
    intro n h
    unfold hex_core
    by_cases hn : n < 16
    · rw [if_pos hn]
      simp [hex_value, hex_digit_value_hex_digit n hn]
    · rw [if_neg hn, hex_value_concat]
      have hq : n / 16 < 16 ^ f := by
        rw [Nat.div_lt_iff_lt_mul (by norm_num)]
        rw [pow_succ] at h; exact h
      rw [ih _ hq, hex_digit_value_hex_digit _ (Nat.mod_lt _ (by norm_num))]
      omega

theorem hex_core_mem : ∀ (fuel n : Nat), ∀ c ∈ hex_core fuel n,
    c ∈ "0123456789abcdef".data := by
  intro fuel
  induction fuel with
  | zero => intro n c h; simp [hex_core] at h
  | succ f ih =>
    intro n c h
    unfold hex_core at h
    by_cases hn : n < 16
    · rw [if_pos hn] at h
      rw [List.mem_singleton] at h
      rw [h]; exact hex_digit_mem n hn
    · rw [if_neg hn, List.mem_append] at h
      rcases h with h | h
      · exact ih _ c h
      · rw [List.mem_singleton] at h
        rw [h]; exact hex_digit_mem _ (Nat.mod_lt _ (by norm_num))

theorem hex_core_head : ∀ (fuel n : Nat), 0 < n → n < 16 ^ fuel →
    (hex_core fuel n).head? ≠ some '0' := by
  intro fuel
  induction fuel with
  | zero => intro n h0 h; simp at h; omega
  | succ f ih =>
    intro n h0 h
    unfold hex_core
    by_cases hn : n < 16
    · rw [if_pos hn]
      simp only [List.head?_cons, ne_eq, Option.some.injEq]
      exact hex_digit_ne_zero n h0 hn
    · rw [if_neg hn]
      have hq : n / 16 < 16 ^ f := by
        rw [Nat.div_lt_iff_lt_mul (by norm_num)]
        rw [pow_succ] at h; exact h
      have hq0 : 0 < n / 16 := by omega
      have hi := ih _ hq0 hq
      cases hc : hex_core f (n / 16) with
      | nil => rw [hc] at hi; cases f with
        | zero => simp at hq; omega
        | succ g =>
          unfold hex_core at hc
          split at hc <;> simp at hc
      | cons a t =>
        rw [hc] at hi
        simpa using hi

/-- The events of one domain of `detect_vmx_features`. -/
theorem detect_domain_eq (regs : Nat → Nat) (msr : Nat) (header : String)
    (cap : List capability_info) (len : Nat)
    (hlen : len ≤ cap.length) (h255 : len ≤ 255) (hbits : ∀ c ∈ cap.take len, c.bit < 32) :
    detect_domain regs msr header cap len = .ok
      (.rdmsr msr :: header_event header (rdmsr regs msr)
        :: (cap.take len).map
          (fun c => entry_event c (rdmsr regs msr).1 (rdmsr regs msr).2)) := by
  unfold detect_domain
  simp only [report_capability_ok cap len _ _ hlen h255 hbits]
  rfl

/-- The whole trace of `detect_vmx_features`. -/
theorem detect_vmx_features_eq (regs : Nat → Nat) :
    detect_vmx_features regs = .ok
      ((.rdmsr 0x481 :: header_event "Pinbased Controls MSR: 0x%llx\n" (rdmsr regs 0x481)
          :: pinbased.map
            (fun c => entry_event c (rdmsr regs 0x481).1 (rdmsr regs 0x481).2))
        ++ (.rdmsr 0x482 :: header_event "Procbased Controls MSR: 0x%llx\n" (rdmsr regs 0x482)
          :: procbased.map
            (fun c => entry_event c (rdmsr regs 0x482).1 (rdmsr regs 0x482).2))
        ++ (.rdmsr 0x48B
          :: header_event "Procbased 2 Controls MSR: 0x%llx\n" (rdmsr regs 0x48B)
          :: procbased2.map
            (fun c => entry_event c (rdmsr regs 0x48B).1 (rdmsr regs 0x48B).2))
        ++ (.rdmsr 0x483 :: header_event "VM exit Controls MSR: 0x%llx\n" (rdmsr regs 0x483)
          :: vmexit_controls.map
            (fun c => entry_event c (rdmsr regs 0x483).1 (rdmsr regs 0x483).2))
        ++ (.rdmsr 0x484 :: header_event "VM Entry Controls MSR: 0x%llx\n" (rdmsr regs 0x484)
          :: vmentry_controls.map
            (fun c => entry_event c (rdmsr regs 0x484).1 (rdmsr regs 0x484).2))) := by
  have t1 : pinbased.take 5 = pinbased := by decide
  have t2 : procbased.take 6 = procbased := by decide
  have t3 : procbased2.take 9 = procbased2 := by decide
  have t4 : vmexit_controls.take 11 = vmexit_controls := by decide
  have t5 : vmentry_controls.take 9 = vmentry_controls := by decide
  have h1 := detect_domain_eq regs IA32_VMX_PINBASED_CTLS
    "Pinbased Controls MSR: 0x%llx\n" pinbased 5 (by decide) (by decide) (by decide)
  have h2 := detect_domain_eq regs IA32_VMX_PROCBASED_CTLS
    "Procbased Controls MSR: 0x%llx\n" procbased 6 (by decide) (by decide) (by decide)
  have h3 := detect_domain_eq regs IA32_VMX_PROCBASED_CTLS2
    "Procbased 2 Controls MSR: 0x%llx\n" procbased2 9 (by decide) (by decide) (by decide)
  have h4 := detect_domain_eq regs IA32_VMX_EXIT_CTLS
    "VM exit Controls MSR: 0x%llx\n" vmexit_controls 11 (by decide) (by decide) (by decide)
  have h5 := detect_domain_eq regs IA32_VMX_ENTRY_CTLS
    "VM Entry Controls MSR: 0x%llx\n" vmentry_controls 9 (by decide) (by decide) (by decide)
  rw [t1] at h1; rw [t2] at h2; rw [t3] at h3; rw [t4] at h4; rw [t5] at h5
  unfold detect_vmx_features
  rw [h1, h2, h3, h4, h5]
  rfl

theorem filter_is_info_map_entry (l : List capability_info) (lo hi : Nat) :
    (l.map (fun c => entry_event c lo hi)).filter Event.is_info = [] := by
  induction l with
  | nil => rfl
  | cons a t ih => simp [List.filter, entry_event, Event.is_info]

theorem getElem?_map_take_entry (cap : List capability_info) (len lo hi i : Nat)
    (e : capability_info) (hi1 : i < len) (he : cap[i]? = some e) :
    ((cap.take len).map (fun c => entry_event c lo hi))[i]? = some (entry_event e lo hi) := by
  rw [List.getElem?_map, List.getElem?_take_of_lt hi1, he]
  rfl

theorem getElem?_map_take_mod32 (cap : List capability_info) (len lo hi i : Nat)
    (e : capability_info) (hi1 : i < len) (he : cap[i]? = some e) :
    ((cap.take len).map (fun c => entry_event (mod32_entry c) lo hi))[i]?
      = some (entry_event (mod32_entry e) lo hi) := by
  rw [List.getElem?_map, List.getElem?_take_of_lt hi1, he]
  rfl

theorem filter_is_printk_map_entry (l : List capability_info) (lo hi : Nat) :
    (l.map (fun c => entry_event c lo hi)).filter Event.is_printk
      = l.map (fun c => entry_event c lo hi) := by
  induction l with
  | nil => rfl
  | cons a t ih => simp [List.filter, entry_event, Event.is_printk]

theorem render_cons_of_ne (c : Char) (rest : List Char) (args : List Nat) (hc : c ≠ '%') :
    render (c :: rest) args = (render rest args).map (fun t => c :: t) := by
  rw [render]
  all_goals (intros; apply hc; assumption)

/-- A format string without a percent sign is logged as it is. -/
theorem render_of_no_percent : ∀ (l : List Char), '%' ∉ l → render l [] = .ok l := by
  intro l
  induction l with
  | nil => intro _; rfl
  | cons a t ih =>
    intro h
    have ha : a ≠ '%' := fun e => h (by simp [e])
    have ht : '%' ∉ t := fun e => h (by simp [e])
    rw [render_cons_of_ne a t [] ha, ih ht]
    rfl

theorem percent_not_mem_format_line (name : Option String) (s cl : Bool)
    (h : '%' ∉ fmt_s name) : '%' ∉ format_line name s cl := by
  have h2 : '%' ∉ yes_no s := by cases s <;> decide
  have h3 : '%' ∉ yes_no cl := by cases cl <;> decide
  have h4 : '%' ∉ "  ".data := by decide
  have h5 : '%' ∉ ": Can set=".data := by decide
  have h6 : '%' ∉ ", Can clear=".data := by decide
  have h7 : '%' ∉ "\n".data := by decide
  simp only [format_line, List.mem_append, not_or]
  exact ⟨⟨⟨⟨⟨⟨h4, h⟩, h5⟩, h2⟩, h6⟩, h3⟩, h7⟩

/-- The text of an entry whose name has no percent sign has none, and is
logged as it is. -/
theorem entry_event_verbatim (c : capability_info) (lo hi : Nat) (h : '%' ∉ fmt_s c.name) :
    '%' ∉ (entry_text c lo hi).data ∧
      (entry_event c lo hi).text = some (.ok (entry_text c lo hi)) := by
  have hp : '%' ∉ (entry_text c lo hi).data := fun e =>
    percent_not_mem_format_line c.name _ _ h (List.mem_of_mem_take e)
  refine ⟨hp, ?_⟩
  simp only [entry_event, Event.text, render_of_no_percent _ hp]
  rfl

theorem yes_no_length (b : Bool) : (yes_no b).length = 2 ∨ (yes_no b).length = 3 := by
  cases b
  · left; rfl
  · right; rfl

theorem format_line_length_eq (name : Option String) (s cl : Bool) :
    (format_line name s cl).length
      = (fmt_s name).length + 25 + (yes_no s).length + (yes_no cl).length := by
  simp [format_line]; omega

theorem format_line_eq_bare (name : Option String) (s cl : Bool) :
    format_line name s cl = bare_line (fmt_s name) s cl ++ "\n".data := rfl

theorem full_line_fmt_s (name : Option String) (s cl : Bool) :
    full_line (fmt_s name) s cl = String.mk (format_line name s cl) := rfl

/-- An entry whose line with its newline has at most 78 characters is
passed to `printk` whole. -/
theorem entry_event_of_fits (c : capability_info) (lo hi : Nat)
    (hfit : (format_line c.name (hi.testBit c.bit) (!lo.testBit c.bit)).length ≤ 78) :
    entry_event c lo hi = complete_event c lo hi := by
  simp only [entry_event, complete_event, entry_text, full_line_fmt_s,
    List.take_of_length_le hfit]

theorem entry_event_of_short (c : capability_info) (lo hi : Nat)
    (h : (fmt_s c.name).length ≤ 47) :
    entry_event c lo hi = complete_event c lo hi := by
  apply entry_event_of_fits
  have hl := format_line_length c.name (hi.testBit c.bit) (!lo.testBit c.bit)
  omega

theorem map_entry_event_of_short (t : List capability_info) (lo hi : Nat)
    (h : ∀ c ∈ t, (fmt_s c.name).length ≤ 47) :
    t.map (fun c => entry_event c lo hi) = t.map (fun c => complete_event c lo hi) := by
  apply List.map_congr_left
  intro c hc
  exact entry_event_of_short c lo hi (h c hc)

/-- The `printk` call of the loop body does not depend on what the buffer
holds when the body starts. -/
theorem report_entry_event_indep (c : capability_info) (lo hi : Nat) (msg msg2 : List Char) :
    (report_entry c lo hi msg).map Prod.snd = (report_entry c lo hi msg2).map Prod.snd := by
  rw [report_entry_eq c lo hi msg, report_entry_eq c lo hi msg2]
  rfl

/-- The calls the loop makes do not depend on the buffer it starts with. -/
theorem report_loop_indep (cap : List capability_info) (len lo hi : Nat) :
    ∀ (fuel i : Nat) (msg msg2 : List Char),
      report_loop cap len lo hi fuel i msg = report_loop cap len lo hi fuel i msg2 := by
  intro fuel
  induction fuel with
  | zero => intro i msg msg2; rfl
  | succ fuel ih =>
    intro i msg msg2
    unfold report_loop
    by_cases hlt : i < len
    · rw [if_pos hlt, if_pos hlt]
      cases hc : cap[i]? with
      | none => rfl
      | some c =>
        simp only
        rw [report_entry_eq c lo hi msg, report_entry_eq c lo hi msg2]
        simp only
        rw [ih ((i + 1) % 256) _
          (snprintf msg2 79
            (format_line c.name (hi.testBit (c.bit % 32)) (!lo.testBit (c.bit % 32))))]
    · rw [if_neg hlt, if_neg hlt]

theorem filter_is_report_map_entry (l : List capability_info) (lo hi : Nat) :
    (l.map (fun c => entry_event c lo hi)).filter Event.is_report
      = l.map (fun c => entry_event c lo hi) := by
  induction l with
  | nil => rfl
  | cons a t ih => simp [List.filter, entry_event, Event.is_report]

theorem filterMap_msr_map_entry (l : List capability_info) (lo hi : Nat) :
    (l.map (fun c => entry_event c lo hi)).filterMap Event.msr = [] := by
  induction l with
  | nil => rfl
  | cons a t ih => simp [List.filterMap, entry_event, Event.msr]

theorem tables_names_short :
    ∀ t ∈ all_tables, ∀ c ∈ t, (fmt_s c.name).length ≤ 40 := by decide

theorem tables_names_no_percent :
    ∀ t ∈ all_tables, ∀ c ∈ t, '%' ∉ fmt_s c.name := by decide

theorem detect_domain_congr (regs regs2 : Nat → Nat) (msr : Nat) (header : String)
    (cap : List capability_info) (len : Nat) (h : regs msr = regs2 msr) :
    detect_domain regs msr header cap len = detect_domain regs2 msr header cap len := by
  unfold detect_domain rdmsr
  rw [h]

/-- The feature lines of `detect_vmx_features`, in order. -/
theorem detect_report_events (regs : Nat → Nat) (evs : List Event)
    (h : detect_vmx_features regs = .ok evs) :
    evs.filter Event.is_report =
      pinbased.map (fun c => entry_event c (rdmsr regs 0x481).1 (rdmsr regs 0x481).2)
      ++ procbased.map (fun c => entry_event c (rdmsr regs 0x482).1 (rdmsr regs 0x482).2)
      ++ procbased2.map (fun c => entry_event c (rdmsr regs 0x48B).1 (rdmsr regs 0x48B).2)
      ++ vmexit_controls.map
        (fun c => entry_event c (rdmsr regs 0x483).1 (rdmsr regs 0x483).2)
      ++ vmentry_controls.map
        (fun c => entry_event c (rdmsr regs 0x484).1 (rdmsr regs 0x484).2) := by
  rw [detect_vmx_features_eq regs] at h
  injection h with h
  subst h
  simp only [List.filter_append, List.filter_cons, Event.is_report, header_event,
    filter_is_report_map_entry]
  simp

/-- The lines of `detect_vmx_features`, in order. -/
theorem detect_printk_events (regs : Nat → Nat) (evs : List Event)
    (h : detect_vmx_features regs = .ok evs) :
    printk_events evs =
      header_event "Pinbased Controls MSR: 0x%llx\n" (rdmsr regs 0x481)
        :: pinbased.map (fun c => entry_event c (rdmsr regs 0x481).1 (rdmsr regs 0x481).2)
      ++ header_event "Procbased Controls MSR: 0x%llx\n" (rdmsr regs 0x482)
        :: procbased.map (fun c => entry_event c (rdmsr regs 0x482).1 (rdmsr regs 0x482).2)
      ++ header_event "Procbased 2 Controls MSR: 0x%llx\n" (rdmsr regs 0x48B)
        :: procbased2.map (fun c => entry_event c (rdmsr regs 0x48B).1 (rdmsr regs 0x48B).2)
      ++ header_event "VM exit Controls MSR: 0x%llx\n" (rdmsr regs 0x483)
        :: vmexit_controls.map
          (fun c => entry_event c (rdmsr regs 0x483).1 (rdmsr regs 0x483).2)
      ++ header_event "VM Entry Controls MSR: 0x%llx\n" (rdmsr regs 0x484)
        :: vmentry_controls.map
          (fun c => entry_event c (rdmsr regs 0x484).1 (rdmsr regs 0x484).2) := by
  rw [detect_vmx_features_eq regs] at h
  injection h with h
  subst h
  simp only [printk_events, List.filter_append, List.filter_cons, Event.is_printk,
    header_event, filter_is_printk_map_entry]
  simp

theorem percent_not_mem_fmt_llx (v : Nat) : '%' ∉ fmt_llx v := by
  intro h
  have hm := hex_core_mem 16 _ _ h
  revert hm
  decide

/-- A header is logged as its label, `0x`, the digits of the value and a
newline, and has no percent sign left. -/
theorem header_text_no_percent (label : List Char) (v : Nat) (h : '%' ∉ label) :
    '%' ∉ label ++ fmt_llx v ++ "\n".data := by
  have h2 := percent_not_mem_fmt_llx v
  have h3 : '%' ∉ "\n".data := by decide
  simp only [List.mem_append, not_or]
  exact ⟨⟨h, h2⟩, h3⟩

/-! ## The claims -/

/-- C1, as amended. For every table, every `lo` and `hi`, and every entry
`e` of the table whose bit index is in [0,31] and whose line
`"  <e.name>: Can set=<S>, Can clear=<C>"` has with its newline at most 78
characters (as it has for every name of at most 47 characters), the text
that the loop body of `report_capability` passes to `printk` for `e` is
exactly that line followed by its newline, where `S` is `Yes` if bit `e.bit`
of `hi` is 1 and `No` otherwise, and `C` is `Yes` if bit `e.bit` of `lo` is
0 and `No` otherwise. It is the line of `e` in the output of every call
that runs to the end, and the call does so when all of its first `len`
entries have a bit index in [0,31]. -/
theorem report_capability_line (cap : List capability_info) (len lo hi i : Nat)
    (e : capability_info) (nm : String)
    (hlen : len ≤ cap.length) (h255 : len ≤ 255) (hil : i < len)
    (he : cap[i]? = some e) (hbit : e.bit < 32) (hn : e.name = some nm)
    (hfit : (full_line (c_str nm) (hi.testBit e.bit) (!lo.testBit e.bit)).length ≤ 78) :
    (∀ msg, ∃ msg1, report_entry e lo hi msg = .ok (msg1, .printk none
      (full_line (c_str nm) (hi.testBit e.bit) (!lo.testBit e.bit)) [])) ∧
    (∀ evs, report_capability cap len lo hi = .ok evs →
      evs[i]? = some (.printk none
        (full_line (c_str nm) (hi.testBit e.bit) (!lo.testBit e.bit)) [])) ∧
    ((∀ c ∈ cap.take len, c.bit < 32) →
      ∃ evs, report_capability cap len lo hi = .ok evs ∧
        evs[i]? = some (.printk none
          (full_line (c_str nm) (hi.testBit e.bit) (!lo.testBit e.bit)) [])) := by
  have hev : entry_event e lo hi = .printk none
      (full_line (c_str nm) (hi.testBit e.bit) (!lo.testBit e.bit)) [] := by
    simp only [entry_event, entry_text_of_fits e nm lo hi hn hfit]
  have hget := getElem?_map_take_entry cap len lo hi i e hil he
  rw [hev] at hget
  refine ⟨?_, ?_, ?_⟩
  · intro msg
    have hr := report_entry_of_lt e lo hi msg hbit
    rw [hev] at hr
    exact ⟨_, hr⟩
  · intro evs h
    rw [report_capability_all cap len lo hi hlen h255] at h
    injection h with h
    rw [← h, getElem?_map_take_mod32 cap len lo hi i e hil he, mod32_entry_of_lt e hbit, hev]
  · intro hbits
    exact ⟨_, report_capability_ok cap len lo hi hlen h255 hbits, hget⟩

/-- C1, the two scenarios of the spec: the single entry
`{0, "External Interrupt Exiting"}` with `lo = 0`, `hi = 1`, and the nine
entries of `procbased2` with `lo = 0`, `hi = 0xFFFFFFFF`. -/
theorem report_capability_line_witness :
    (1 ≤ [(⟨0, some "External Interrupt Exiting"⟩ : capability_info)].length ∧
      1 ≤ 255 ∧ 0 < 1 ∧
      [(⟨0, some "External Interrupt Exiting"⟩ : capability_info)][0]?
        = some ⟨0, some "External Interrupt Exiting"⟩ ∧
      0 < 32 ∧
      (full_line (c_str "External Interrupt Exiting") (Nat.testBit 1 0)
        (!Nat.testBit 0 0)).length ≤ 78) ∧
    (∃ evs, report_capability [⟨0, some "External Interrupt Exiting"⟩] 1 0 1 = .ok evs ∧
      evs[0]? = some (.printk none
        "  External Interrupt Exiting: Can set=Yes, Can clear=Yes\n" [])) ∧
    report_capability procbased2 9 0 0xFFFFFFFF = .ok
      [ .printk none "  Virtualize APIC Accesses: Can set=Yes, Can clear=Yes\n" [],
        .printk none "  Enable EPT: Can set=Yes, Can clear=Yes\n" [],
        .printk none "  Descriptor-table Exiting: Can set=Yes, Can clear=Yes\n" [],
        .printk none "  Enable RDTSCP: Can set=Yes, Can clear=Yes\n" [],
        .printk none "  Virtualize x2APIC Mode: Can set=Yes, Can clear=Yes\n" [],
        .printk none "  Enable VPID: Can set=Yes, Can clear=Yes\n" [],
        .printk none "  WBINVD Exiting: Can set=Yes, Can clear=Yes\n" [],
        .printk none "  Unrestricted Guest: Can set=Yes, Can clear=Yes\n" [],
        .printk none "  APIC Register Virtualization: Can set=Yes, Can clear=Yes\n" [] ] :=
  ⟨⟨by decide, by decide, by decide, by rfl, by decide, by decide⟩,
    (report_capability_line [⟨0, some "External Interrupt Exiting"⟩] 1 0 1 0
      ⟨0, some "External Interrupt Exiting"⟩ "External Interrupt Exiting"
      (by decide) (by decide) (by decide) rfl (by decide) rfl (by decide)).2.2
      (by decide),
    by rfl⟩

/-- C1 as stated fails on a long name: for the entry
`{0, <a name of 60 characters>}` with `lo = 0`, `hi = 1` the text passed to
`printk` is the first 78 characters of the line, which stop inside
`Can clear`; it is neither the line nor the line with its newline. -/
theorem long_name_line_truncated :
    report_capability
        [⟨0, some "A feature name that is sixty characters long, for the buffer"⟩] 1 0 1
      = .ok [.printk none
          "  A feature name that is sixty characters long, for the buffer: Can set=Yes, C" []] ∧
    "  A feature name that is sixty characters long, for the buffer: Can set=Yes, C"
      ≠ "  A feature name that is sixty characters long, for the buffer: Can set=Yes, Can clear=Yes" ∧
    "  A feature name that is sixty characters long, for the buffer: Can set=Yes, C"
      ≠ "  A feature name that is sixty characters long, for the buffer: Can set=Yes, Can clear=Yes\n" := by
  refine ⟨by rfl, by decide, by decide⟩

/-- C3. For every assignment of values to the capability registers,
`detect_vmx_features` runs to the end and logs exactly 45 lines, in five
blocks in the order pin-based, processor-based, processor-based-2, VM-exit,
VM-entry; each block is the header of its domain followed by the 5, 6, 9,
11 and 9 lines that `report_capability` emits for the domain's table and
the two halves of its register, in table order. -/
theorem detect_vmx_features_blocks (regs : Nat → Nat) :
    ∃ r1 r2 r3 r4 r5 evs,
      report_capability pinbased 5 (rdmsr regs 0x481).1 (rdmsr regs 0x481).2 = .ok r1 ∧
      report_capability procbased 6 (rdmsr regs 0x482).1 (rdmsr regs 0x482).2 = .ok r2 ∧
      report_capability procbased2 9 (rdmsr regs 0x48B).1 (rdmsr regs 0x48B).2 = .ok r3 ∧
      report_capability vmexit_controls 11 (rdmsr regs 0x483).1 (rdmsr regs 0x483).2
        = .ok r4 ∧
      report_capability vmentry_controls 9 (rdmsr regs 0x484).1 (rdmsr regs 0x484).2
        = .ok r5 ∧
      r1 = pinbased.map
        (fun c => entry_event c (rdmsr regs 0x481).1 (rdmsr regs 0x481).2) ∧
      r2 = procbased.map
        (fun c => entry_event c (rdmsr regs 0x482).1 (rdmsr regs 0x482).2) ∧
      r3 = procbased2.map
        (fun c => entry_event c (rdmsr regs 0x48B).1 (rdmsr regs 0x48B).2) ∧
      r4 = vmexit_controls.map
        (fun c => entry_event c (rdmsr regs 0x483).1 (rdmsr regs 0x483).2) ∧
      r5 = vmentry_controls.map
        (fun c => entry_event c (rdmsr regs 0x484).1 (rdmsr regs 0x484).2) ∧
      r1.length = 5 ∧ r2.length = 6 ∧ r3.length = 9 ∧ r4.length = 11 ∧ r5.length = 9 ∧
      detect_vmx_features regs = .ok evs ∧
      printk_events evs =
        header_event "Pinbased Controls MSR: 0x%llx\n" (rdmsr regs 0x481) :: r1
        ++ header_event "Procbased Controls MSR: 0x%llx\n" (rdmsr regs 0x482) :: r2
        ++ header_event "Procbased 2 Controls MSR: 0x%llx\n" (rdmsr regs 0x48B) :: r3
        ++ header_event "VM exit Controls MSR: 0x%llx\n" (rdmsr regs 0x483) :: r4
        ++ header_event "VM Entry Controls MSR: 0x%llx\n" (rdmsr regs 0x484) :: r5 ∧
      (printk_events evs).length = 45 := by
  have h1 := report_capability_ok pinbased 5 (rdmsr regs 0x481).1 (rdmsr regs 0x481).2
    (by decide) (by decide) (by decide)
  have h2 := report_capability_ok procbased 6 (rdmsr regs 0x482).1 (rdmsr regs 0x482).2
    (by decide) (by decide) (by decide)
  have h3 := report_capability_ok procbased2 9 (rdmsr regs 0x48B).1 (rdmsr regs 0x48B).2
    (by decide) (by decide) (by decide)
  have h4 := report_capability_ok vmexit_controls 11 (rdmsr regs 0x483).1
    (rdmsr regs 0x483).2 (by decide) (by decide) (by decide)
  have h5 := report_capability_ok vmentry_controls 9 (rdmsr regs 0x484).1
    (rdmsr regs 0x484).2 (by decide) (by decide) (by decide)
  have t1 : pinbased.take 5 = pinbased := by decide
  have t2 : procbased.take 6 = procbased := by decide
  have t3 : procbased2.take 9 = procbased2 := by decide
  have t4 : vmexit_controls.take 11 = vmexit_controls := by decide
  have t5 : vmentry_controls.take 9 = vmentry_controls := by decide
  rw [t1] at h1; rw [t2] at h2; rw [t3] at h3; rw [t4] at h4; rw [t5] at h5
  have l1 : pinbased.length = 5 := by decide
  have l2 : procbased.length = 6 := by decide
  have l3 : procbased2.length = 9 := by decide
  have l4 : vmexit_controls.length = 11 := by decide
  have l5 : vmentry_controls.length = 9 := by decide
  have hd := detect_vmx_features_eq regs
  refine ⟨_, _, _, _, _, _, h1, h2, h3, h4, h5, rfl, rfl, rfl, rfl, rfl, ?_, ?_, ?_, ?_, ?_,
    hd, ?_, ?_⟩
  · simp [l1]
  · simp [l2]
  · simp [l3]
  · simp [l4]
  · simp [l5]
  · simp only [printk_events, List.filter_append, List.filter_cons, Event.is_printk,
      header_event, filter_is_printk_map_entry]
    simp
  · simp only [printk_events, List.filter_append, List.filter_cons, Event.is_printk,
      header_event, filter_is_printk_map_entry]
    simp [l1, l2, l3, l4, l5]

/-- C4 fails on the code. The bit numbers of `pinbased`, `procbased` and
`procbased2` are those of the Intel SDM, but every name of
`vmexit_controls` carries the position of the control before it in the
SDM's list (1, 2, 9, ..., 23 in place of 2, 9, 12, ..., 24), and
`vmentry_controls` has 12 for "Load IA32_PERF_GLOBAL_CTRL", which is bit
13. With only bit 2 of the high half of the VM-exit register set (save
debug controls may be 1), the report says that "Save Debug Controls" cannot
be set and that "Host Address-Space Size" can. -/
theorem vmexit_controls_bits_misplaced :
    pinbased.map (fun c => c.bit) = sdm_pinbased_bits ∧
    procbased.map (fun c => c.bit) = sdm_procbased_bits ∧
    procbased2.map (fun c => c.bit) = sdm_procbased2_bits ∧
    vmexit_controls.map (fun c => c.bit) = [1, 2, 9, 12, 15, 18, 19, 20, 21, 22, 23] ∧
    vmexit_controls.map (fun c => c.bit) ≠ sdm_vmexit_bits ∧
    (∀ i, i < 11 → (vmexit_controls.map (fun c => c.bit))[i]? ≠ sdm_vmexit_bits[i]?) ∧
    vmentry_controls.map (fun c => c.bit) = [2, 9, 10, 11, 12, 14, 15, 16, 17] ∧
    vmentry_controls.map (fun c => c.bit) ≠ sdm_vmentry_bits ∧
    report_capability vmexit_controls 11 0 4 = .ok
      [ .printk none "  Save Debug Controls: Can set=No, Can clear=Yes\n" [],
        .printk none "  Host Address-Space Size: Can set=Yes, Can clear=Yes\n" [],
        .printk none "  Load IA32_PERF_GLOBAL_CTRL: Can set=No, Can clear=Yes\n" [],
        .printk none "  Acknowledge Interrupt on Exit: Can set=No, Can clear=Yes\n" [],
        .printk none "  Save IA32_PAT: Can set=No, Can clear=Yes\n" [],
        .printk none "  Load IA32_PAT: Can set=No, Can clear=Yes\n" [],
        .printk none "  Save IA32_EFER: Can set=No, Can clear=Yes\n" [],
        .printk none "  Load IA32_EFER: Can set=No, Can clear=Yes\n" [],
        .printk none "  Save VMX Preemption Timer: Can set=No, Can clear=Yes\n" [],
        .printk none "  Clear IA32_BNDCFGS: Can set=No, Can clear=Yes\n" [],
        .printk none "  Conceal VMX from PT: Can set=No, Can clear=Yes\n" [] ] := by
  refine ⟨by decide, by decide, by decide, by decide, by decide, by decide, by decide,
    by decide, by rfl⟩

/-- C5. In each of the five static tables every bit index lies in [0,31]
and no two entries have the same bit index. -/
theorem tables_bits_in_range_and_distinct :
    (∀ c ∈ pinbased, c.bit ≤ 31) ∧ (pinbased.map (fun c => c.bit)).Nodup ∧
    (∀ c ∈ procbased, c.bit ≤ 31) ∧ (procbased.map (fun c => c.bit)).Nodup ∧
    (∀ c ∈ procbased2, c.bit ≤ 31) ∧ (procbased2.map (fun c => c.bit)).Nodup ∧
    (∀ c ∈ vmexit_controls, c.bit ≤ 31) ∧ (vmexit_controls.map (fun c => c.bit)).Nodup ∧
    (∀ c ∈ vmentry_controls, c.bit ≤ 31) ∧
      (vmentry_controls.map (fun c => c.bit)).Nodup := by
  refine ⟨by decide, by decide, by decide, by decide, by decide, by decide, by decide,
    by decide, by decide, by decide⟩

/-- C6. The five static tables have 5, 6, 9, 11 and 9 entries, 40 in all,
and every slot of each array is filled by an initialiser: no table has an
entry with a null name. -/
theorem tables_lengths :
    pinbased.length = 5 ∧ procbased.length = 6 ∧ procbased2.length = 9 ∧
    vmexit_controls.length = 11 ∧ vmentry_controls.length = 9 ∧
    pinbased.length + procbased.length + procbased2.length + vmexit_controls.length
      + vmentry_controls.length = 40 ∧
    (∀ c ∈ pinbased ++ procbased ++ procbased2 ++ vmexit_controls ++ vmentry_controls,
      c.name ≠ none) := by
  refine ⟨by decide, by decide, by decide, by decide, by decide, by decide, by decide⟩

/-- C7. Boundary bits are tested without sign or shift error. For every
`lo`, `hi` in `uint32_t`: the mask `1 << 31`, computed in `int`, is
`-2^31` and becomes `2^31` in `uint32_t`, and the mask `1 << 0` is 1; an
entry with bit index 31 is reported with `Can set=Yes` iff `hi >= 2^31` and
`Can clear=Yes` iff `lo < 2^31`; an entry with bit index 0 is reported with
`Can set=Yes` iff `hi` is odd and `Can clear=Yes` iff `lo` is even. The
report of an entry is the text its loop body passes to `printk`: the line
formatted with these two answers, cut to 78 characters. -/
theorem boundary_bits_tested (lo hi : Nat) (hlo : lo < 2 ^ 32) (hhi : hi < 2 ^ 32)
    (name : Option String) (msg : List Char) :
    shl_int 1 31 = -2 ^ 31 ∧ bit_mask 31 = 2 ^ 31 ∧
    shl_int 1 0 = 1 ∧ bit_mask 0 = 1 ∧
    can_set ⟨31, name⟩ hi = decide (2 ^ 31 ≤ hi) ∧
    can_clear ⟨31, name⟩ lo = decide (lo < 2 ^ 31) ∧
    can_set ⟨0, name⟩ hi = decide (hi % 2 = 1) ∧
    can_clear ⟨0, name⟩ lo = decide (lo % 2 = 0) ∧
    (∃ msg1, report_entry ⟨31, name⟩ lo hi msg = .ok (msg1, .printk none
      (String.mk ((format_line name (decide (2 ^ 31 ≤ hi)) (decide (lo < 2 ^ 31))).take 78))
      [])) ∧
    (∃ msg1, report_entry ⟨0, name⟩ lo hi msg = .ok (msg1, .printk none
      (String.mk ((format_line name (decide (hi % 2 = 1)) (decide (lo % 2 = 0))).take 78))
      [])) ∧
    (∀ nm, name = some nm → (c_str nm).length ≤ 47 →
      (∃ msg1, report_entry ⟨31, name⟩ lo hi msg = .ok (msg1, .printk none
        (full_line (c_str nm) (decide (2 ^ 31 ≤ hi)) (decide (lo < 2 ^ 31))) [])) ∧
      (∃ msg1, report_entry ⟨0, name⟩ lo hi msg = .ok (msg1, .printk none
        (full_line (c_str nm) (decide (hi % 2 = 1)) (decide (lo % 2 = 0))) []))) := by
  have a1 := testBit_31_of_lt hi hhi
  have a2 := not_testBit_31_of_lt lo hlo
  have a3 := testBit_0_eq hi
  have a4 := not_testBit_0_eq lo
  have b31 : (⟨31, name⟩ : capability_info).bit < 32 := show (31 : Nat) < 32 by decide
  have b0 : (⟨0, name⟩ : capability_info).bit < 32 := show (0 : Nat) < 32 by decide
  have r31 := report_entry_of_lt ⟨31, name⟩ lo hi msg b31
  rw [entry_text_eq ⟨31, name⟩ lo hi _ _ a1 a2] at r31
  have r0 := report_entry_of_lt ⟨0, name⟩ lo hi msg b0
  rw [entry_text_eq ⟨0, name⟩ lo hi _ _ a3 a4] at r0
  refine ⟨by rfl, by rfl, by rfl, by rfl, ?_, ?_, ?_, ?_, ⟨_, r31⟩, ⟨_, r0⟩, ?_⟩
  · rw [can_set_of_lt _ _ b31]; exact a1
  · rw [can_clear_of_lt _ _ b31]; exact a2
  · rw [can_set_of_lt _ _ b0]; exact a3
  · rw [can_clear_of_lt _ _ b0]; exact a4
  · intro nm hn hshort
    subst hn
    have f31 := full_line_length_le nm (decide (2 ^ 31 ≤ hi)) (decide (lo < 2 ^ 31)) hshort
    have f0 := full_line_length_le nm (decide (hi % 2 = 1)) (decide (lo % 2 = 0)) hshort
    rw [full_line_eq, String.length_mk] at f31 f0
    rw [List.take_of_length_le f31] at r31
    rw [List.take_of_length_le f0] at r0
    exact ⟨⟨_, r31⟩, ⟨_, r0⟩⟩

/-- C7 at `hi = 0x80000000`, `lo = 0x7FFFFFFF`: bit 31 can be set and can
be cleared, bit 0 cannot be set and cannot be cleared. -/
theorem boundary_bits_tested_witness :
    ((0x7FFFFFFF : Nat) < 2 ^ 32 ∧ (0x80000000 : Nat) < 2 ^ 32) ∧
    (∃ msg1, report_entry ⟨31, some "Top"⟩ 0x7FFFFFFF 0x80000000 (memset_zero MAX_MSG)
      = .ok (msg1, .printk none "  Top: Can set=Yes, Can clear=Yes\n" [])) ∧
    (∃ msg1, report_entry ⟨0, some "Bottom"⟩ 0x7FFFFFFF 0x80000000 (memset_zero MAX_MSG)
      = .ok (msg1, .printk none "  Bottom: Can set=No, Can clear=No\n" [])) := by
  have h := boundary_bits_tested 0x7FFFFFFF 0x80000000 (by decide) (by decide)
  exact ⟨⟨by decide, by decide⟩,
    (h (some "Top") (memset_zero MAX_MSG)).2.2.2.2.2.2.2.2.1,
    (h (some "Bottom") (memset_zero MAX_MSG)).2.2.2.2.2.2.2.2.2.1⟩

/-- C8. With `lo = 0xFFFFFFFF` and `hi = 0`, for an entry with any bit
index, neither answer is Yes and the text passed to `printk` is the line
`"  <name>: Can set=No, Can clear=No"` with its newline, cut to 78
characters; it is the whole line for every name of at most 49 characters.
This is shown for an entry `c` of the data model, with its bit index in
[0,31], and the answers and the text are the same for every other entry
`d`, whatever its bit index. -/
theorem all_ones_low_zero_high (c : capability_info) (hbit : c.bit < 32)
    (msg : List Char) :
    can_set c 0 = false ∧ can_clear c 0xFFFFFFFF = false ∧
    (∃ msg1, report_entry c 0xFFFFFFFF 0 msg = .ok (msg1, .printk none
      (String.mk ((format_line c.name false false).take 78)) [])) ∧
    (∀ nm, c.name = some nm → (c_str nm).length ≤ 49 →
      ∃ msg1, report_entry c 0xFFFFFFFF 0 msg = .ok (msg1, .printk none
        (String.mk ("  ".data ++ c_str nm ++ ": Can set=No, Can clear=No\n".data)) [])) ∧
    (∀ d : capability_info, can_set d 0 = false ∧ can_clear d 0xFFFFFFFF = false ∧
      ∃ msg1, report_entry d 0xFFFFFFFF 0 msg = .ok (msg1, .printk none
        (String.mk ((format_line d.name false false).take 78)) [])) := by
  have a1 : (0 : Nat).testBit c.bit = false := Nat.zero_testBit _
  have a2 : (!(0xFFFFFFFF : Nat).testBit c.bit) = false := by
    rw [testBit_all_ones _ hbit]; rfl
  have hr := report_entry_of_lt c 0xFFFFFFFF 0 msg hbit
  rw [entry_text_eq c 0xFFFFFFFF 0 _ _ a1 a2] at hr
  refine ⟨?_, ?_, ⟨_, hr⟩, ?_, ?_⟩
  · rw [can_set_of_lt _ _ hbit, a1]
  · rw [can_clear_of_lt _ _ hbit, a2]
  · intro nm hn hshort
    have hf : fmt_s c.name = c_str nm := by rw [hn]; rfl
    have hlen : (format_line c.name false false).length ≤ 78 := by
      simp [format_line, yes_no, hf]; omega
    have htxt : (format_line c.name false false).take 78
        = "  ".data ++ c_str nm ++ ": Can set=No, Can clear=No\n".data := by
      rw [List.take_of_length_le hlen]
      simp [format_line, yes_no, hf]
    rw [htxt] at hr
    exact ⟨_, hr⟩
  · intro d
    have hk : d.bit % 32 < 32 := Nat.mod_lt _ (by decide)
    have b1 : (0 : Nat).testBit (d.bit % 32) = false := Nat.zero_testBit _
    have b2 : (!(0xFFFFFFFF : Nat).testBit (d.bit % 32)) = false := by
      rw [testBit_all_ones _ hk]; rfl
    have hd := report_entry_eq d 0xFFFFFFFF 0 msg
    rw [entry_text_eq (mod32_entry d) 0xFFFFFFFF 0 _ _ b1 b2] at hd
    refine ⟨?_, ?_, ⟨_, hd⟩⟩
    · rw [can_set_eq, b1]
    · rw [can_clear_eq, b2]

/-- C8 on the entry `{31, "Top"}`. -/
theorem all_ones_low_zero_high_witness :
    (31 < 32) ∧
    ∃ msg1, report_entry ⟨31, some "Top"⟩ 0xFFFFFFFF 0 (memset_zero MAX_MSG)
      = .ok (msg1, .printk none "  Top: Can set=No, Can clear=No\n" []) :=
  ⟨by decide,
    (all_ones_low_zero_high ⟨31, some "Top"⟩ (by decide) (memset_zero MAX_MSG)).2.2.2.1
      "Top" rfl (by decide)⟩

/-- C9, as amended. `report_capability` has no test of the bit index: an
entry whose bit index is in 32..255 is reported like any other, with one
`printk` call. But the index does not give a bit test against zero: the
shift `1 << bit` takes its count modulo 32, so the mask is
`2^(bit mod 32)`, never 0; the entry is reported exactly as the entry of the
same name with bit index `bit mod 32` is, and its settability and
clearability are those of bit `bit mod 32` of `hi` and of `lo`, which change
with `hi` and `lo`. -/
theorem wide_bit_tested_modulo_32 (bit : Nat) (h32 : 32 ≤ bit) (h255 : bit ≤ 255)
    (name : Option String) (lo hi : Nat) (msg : List Char) :
    bit % 256 = bit ∧ bit % 32 < bit ∧
    bit_mask bit = 2 ^ (bit % 32) ∧ bit_mask bit ≠ 0 ∧
    can_set ⟨bit, name⟩ hi = hi.testBit (bit % 32) ∧
    can_clear ⟨bit, name⟩ lo = (!lo.testBit (bit % 32)) ∧
    report_entry ⟨bit, name⟩ lo hi msg = report_entry ⟨bit % 32, name⟩ lo hi msg ∧
    (∃ msg1, report_entry ⟨bit, name⟩ lo hi msg
      = .ok (msg1, entry_event ⟨bit % 32, name⟩ lo hi)) ∧
    report_capability [⟨bit, name⟩] 1 lo hi = .ok [entry_event ⟨bit % 32, name⟩ lo hi] ∧
    can_set ⟨bit, name⟩ (2 ^ (bit % 32)) = true ∧ can_set ⟨bit, name⟩ 0 = false ∧
    can_clear ⟨bit, name⟩ 0 = true ∧ can_clear ⟨bit, name⟩ (2 ^ (bit % 32)) = false := by
  have hk : bit % 32 < 32 := Nat.mod_lt _ (by decide)
  have hmm : bit % 32 % 32 = bit % 32 := Nat.mod_eq_of_lt hk
  have hm : mod32_entry ⟨bit, name⟩ = ⟨bit % 32, name⟩ := rfl
  have hm2 : mod32_entry ⟨bit % 32, name⟩ = ⟨bit % 32, name⟩ := by
    simp only [mod32_entry, hmm]
  have hr := report_entry_eq ⟨bit, name⟩ lo hi msg
  have hr2 := report_entry_eq ⟨bit % 32, name⟩ lo hi msg
  simp only [hm] at hr
  simp only [hm2, hmm] at hr2
  have hcall := report_capability_all [⟨bit, name⟩] 1 lo hi (by simp) (by decide)
  refine ⟨Nat.mod_eq_of_lt (by omega), by omega, bit_mask_eq bit, ?_, can_set_eq _ hi,
    can_clear_eq _ lo, ?_, ⟨_, hr⟩, ?_, ?_, ?_, ?_, ?_⟩
  · rw [bit_mask_eq]; exact Nat.pos_iff_ne_zero.mp (Nat.pow_pos (by decide))
  · rw [hr, hr2]
  · rw [hcall]; rfl
  · rw [can_set_eq]; exact Nat.testBit_two_pow_self
  · rw [can_set_eq]; exact Nat.zero_testBit _
  · rw [can_clear_eq, Nat.zero_testBit]; rfl
  · rw [can_clear_eq]
    show (!(2 ^ (bit % 32)).testBit (bit % 32)) = false
    rw [Nat.testBit_two_pow_self]; rfl

/-- C9 at bit index 40 with `lo = 0`, `hi = 0x100`: the mask is `2^8` and
the entry is reported as bit 8 is. -/
theorem wide_bit_tested_modulo_32_witness :
    (32 ≤ 40 ∧ 40 ≤ 255) ∧
    bit_mask 40 = 2 ^ 8 ∧
    report_capability [⟨40, some "X"⟩] 1 0 0x100
      = .ok [.printk none "  X: Can set=Yes, Can clear=Yes\n" []] := by
  have h := wide_bit_tested_modulo_32 40 (by decide) (by decide) (some "X") 0 0x100
    (memset_zero MAX_MSG)
  exact ⟨by decide, h.2.2.1, h.2.2.2.2.2.2.2.2.1⟩

/-- C9 as stated fails: at bit index 32 the mask `1 << 32` is 1, not 0, and
the answers change with `hi` and `lo`: the entry `{32, "X"}` is reported
`Can set=Yes, Can clear=Yes` with `lo = 0`, `hi = 1` and
`Can set=No, Can clear=No` with `lo = 1`, `hi = 0`. -/
theorem wide_bit_mask_not_zero :
    bit_mask 32 = 1 ∧ bit_mask 32 ≠ 0 ∧
    can_set ⟨32, some "X"⟩ 1 = true ∧ can_set ⟨32, some "X"⟩ 0 = false ∧
    can_clear ⟨32, some "X"⟩ 0 = true ∧ can_clear ⟨32, some "X"⟩ 1 = false ∧
    report_capability [⟨32, some "X"⟩] 1 0 1
      = .ok [.printk none "  X: Can set=Yes, Can clear=Yes\n" []] ∧
    report_capability [⟨32, some "X"⟩] 1 1 0
      = .ok [.printk none "  X: Can set=No, Can clear=No\n" []] := by
  refine ⟨by rfl, by decide, by rfl, by rfl, by rfl, by rfl, by rfl, by rfl⟩

/-- C10. For every `lo`, `hi` in `uint32_t` the value printed in a
domain's header, `(uint64_t)(lo | (uint64_t)hi << 32)`, is
`hi * 2^32 + lo`: its bits 0-31 are `lo` and its bits 32-63 are `hi`. The
`%llx` conversion writes it in lower-case hexadecimal without leading
zeros (the digits denote the value, and the first is `0` only for the value
0), and the header logged is the domain label, `": 0x"`, these digits and a
newline. The headers of `detect_vmx_features` are, in order, those of the
labels "Pinbased Controls MSR", "Procbased Controls MSR", "Procbased 2
Controls MSR", "VM exit Controls MSR" and "VM Entry Controls MSR", each
with the value of its own register. -/
theorem header_line (regs : Nat → Nat) (lo hi : Nat) (hlo : lo < 2 ^ 32)
    (hhi : hi < 2 ^ 32) :
    msr_value lo hi = hi * 2 ^ 32 + lo ∧
    msr_value lo hi % 2 ^ 32 = lo ∧ msr_value lo hi / 2 ^ 32 = hi ∧
    hex_value (fmt_llx (msr_value lo hi)) = msr_value lo hi ∧
    (∀ c ∈ fmt_llx (msr_value lo hi), c ∈ "0123456789abcdef".data) ∧
    (msr_value lo hi ≠ 0 → (fmt_llx (msr_value lo hi)).head? ≠ some '0') ∧
    (msr_value lo hi = 0 → fmt_llx (msr_value lo hi) = "0".data) ∧
    (header_event "Pinbased Controls MSR: 0x%llx\n" (lo, hi)).text = some (.ok (String.mk
      ("Pinbased Controls MSR: 0x".data ++ fmt_llx (msr_value lo hi) ++ "\n".data))) ∧
    (header_event "Procbased Controls MSR: 0x%llx\n" (lo, hi)).text = some (.ok (String.mk
      ("Procbased Controls MSR: 0x".data ++ fmt_llx (msr_value lo hi) ++ "\n".data))) ∧
    (header_event "Procbased 2 Controls MSR: 0x%llx\n" (lo, hi)).text = some (.ok (String.mk
      ("Procbased 2 Controls MSR: 0x".data ++ fmt_llx (msr_value lo hi) ++ "\n".data))) ∧
    (header_event "VM exit Controls MSR: 0x%llx\n" (lo, hi)).text = some (.ok (String.mk
      ("VM exit Controls MSR: 0x".data ++ fmt_llx (msr_value lo hi) ++ "\n".data))) ∧
    (header_event "VM Entry Controls MSR: 0x%llx\n" (lo, hi)).text = some (.ok (String.mk
      ("VM Entry Controls MSR: 0x".data ++ fmt_llx (msr_value lo hi) ++ "\n".data))) ∧
    (∃ evs, detect_vmx_features regs = .ok evs ∧
      evs.filter Event.is_info =
        [ header_event "Pinbased Controls MSR: 0x%llx\n" (rdmsr regs 0x481),
          header_event "Procbased Controls MSR: 0x%llx\n" (rdmsr regs 0x482),
          header_event "Procbased 2 Controls MSR: 0x%llx\n" (rdmsr regs 0x48B),
          header_event "VM exit Controls MSR: 0x%llx\n" (rdmsr regs 0x483),
          header_event "VM Entry Controls MSR: 0x%llx\n" (rdmsr regs 0x484) ]) := by
  have hv := msr_value_eq lo hi hlo hhi
  have hlo1 : lo < 4294967296 := by simpa using hlo
  have hhi1 : hi < 4294967296 := by simpa using hhi
  have hlt : msr_value lo hi < 2 ^ 64 := by
    rw [hv]; norm_num; omega
  have hfmt : fmt_llx (msr_value lo hi) = hex_core 16 (msr_value lo hi) := by
    unfold fmt_llx; rw [Nat.mod_eq_of_lt hlt]
  have h16 : msr_value lo hi < 16 ^ 16 := by
    have e : (16 : Nat) ^ 16 = 2 ^ 64 := by norm_num
    rw [e]; exact hlt
  refine ⟨hv, ?_, ?_, ?_, ?_, ?_, ?_, by rfl, by rfl, by rfl, by rfl, by rfl, ?_⟩
  · rw [hv]; norm_num; omega
  · rw [hv]; norm_num; omega
  · rw [hfmt]; exact hex_value_hex_core 16 _ h16
  · rw [hfmt]; exact hex_core_mem 16 _
  · intro hne
    rw [hfmt]; exact hex_core_head 16 _ (Nat.pos_of_ne_zero hne) h16
  · intro h0
    rw [h0]; rfl
  · refine ⟨_, detect_vmx_features_eq regs, ?_⟩
    simp only [List.filter_append, List.filter_cons, Event.is_info, header_event,
      filter_is_info_map_entry]
    simp

/-- C10 at `lo = 0xff`, `hi = 0x12`: the value is `0x12000000ff` and the
pin-based header reads `Pinbased Controls MSR: 0x12000000ff`. -/
theorem header_line_witness :
    ((0xff : Nat) < 2 ^ 32 ∧ (0x12 : Nat) < 2 ^ 32) ∧
    msr_value 0xff 0x12 = 0x12 * 2 ^ 32 + 0xff ∧
    (header_event "Pinbased Controls MSR: 0x%llx\n" (0xff, 0x12)).text
      = some (.ok "Pinbased Controls MSR: 0x12000000ff\n") :=
  ⟨⟨by decide, by decide⟩,
    (header_line (fun _ => 0x12000000ff) 0xff 0x12 (by decide) (by decide)).1,
    (header_line (fun _ => 0x12000000ff) 0xff 0x12 (by decide)
      (by decide)).2.2.2.2.2.2.2.1⟩

/-- C11. No line is truncated for a realistic name. For every entry whose
name has at most 40 characters, every bit index in [0,31] and every `lo`,
`hi`, the line has with its newline at most 71 characters, and the text
that `snprintf(msg, 79, ...)` produces and `printk` receives is the
complete line, ending with its newline. Every one of the 40 names of the
five static tables has at most 40 characters, so the 40 feature lines of
`detect_vmx_features` are all passed complete, in order. -/
theorem realistic_names_not_truncated (regs : Nat → Nat) (e : capability_info)
    (nm : String) (lo hi : Nat) (msg : List Char)
    (hbit : e.bit < 32) (hn : e.name = some nm) (h40 : (c_str nm).length ≤ 40) :
    (full_line (c_str nm) (hi.testBit e.bit) (!lo.testBit e.bit)).length ≤ 71 ∧
    (full_line (c_str nm) (hi.testBit e.bit) (!lo.testBit e.bit)).length
      ≤ (c_str nm).length + 31 ∧
    (∃ msg1, report_entry e lo hi msg = .ok (msg1, .printk none
      (full_line (c_str nm) (hi.testBit e.bit) (!lo.testBit e.bit)) [])) ∧
    (full_line (c_str nm) (hi.testBit e.bit) (!lo.testBit e.bit)).data.getLast?
      = some '\n' ∧
    (∀ t ∈ all_tables, ∀ c ∈ t, ∃ n, c.name = some n ∧ n.length ≤ 40 ∧
      (c_str n).length ≤ 40) ∧
    (∃ evs, detect_vmx_features regs = .ok evs ∧
      evs.filter Event.is_report =
        pinbased.map
          (fun c => complete_event c (rdmsr regs 0x481).1 (rdmsr regs 0x481).2)
        ++ procbased.map
          (fun c => complete_event c (rdmsr regs 0x482).1 (rdmsr regs 0x482).2)
        ++ procbased2.map
          (fun c => complete_event c (rdmsr regs 0x48B).1 (rdmsr regs 0x48B).2)
        ++ vmexit_controls.map
          (fun c => complete_event c (rdmsr regs 0x483).1 (rdmsr regs 0x483).2)
        ++ vmentry_controls.map
          (fun c => complete_event c (rdmsr regs 0x484).1 (rdmsr regs 0x484).2)) := by
  have hl := format_line_length (some nm) (hi.testBit e.bit) (!lo.testBit e.bit)
  have hf : fmt_s (some nm) = c_str nm := rfl
  rw [hf] at hl
  have hlen : (full_line (c_str nm) (hi.testBit e.bit) (!lo.testBit e.bit)).length
      ≤ (c_str nm).length + 31 := by
    rw [full_line_eq, String.length_mk]; exact hl
  have hr := report_entry_of_lt e lo hi msg hbit
  have hev : entry_event e lo hi = .printk none
      (full_line (c_str nm) (hi.testBit e.bit) (!lo.testBit e.bit)) [] := by
    simp only [entry_event, entry_text_of_fits e nm lo hi hn (by omega)]
  rw [hev] at hr
  have hshort : ∀ t ∈ all_tables, ∀ c ∈ t, (fmt_s c.name).length ≤ 47 := fun t ht c hc =>
    Nat.le_trans (tables_names_short t ht c hc) (by decide)
  refine ⟨by omega, hlen, ⟨_, hr⟩, ?_, by decide, _, detect_vmx_features_eq regs, ?_⟩
  · show (bare_line (c_str nm) (hi.testBit e.bit) (!lo.testBit e.bit) ++ ['\n']).getLast?
      = some '\n'
    exact List.getLast?_concat _
  · simp only [List.filter_append, List.filter_cons, Event.is_report, header_event,
      filter_is_report_map_entry]
    rw [map_entry_event_of_short pinbased _ _ (hshort _ (by decide)),
      map_entry_event_of_short procbased _ _ (hshort _ (by decide)),
      map_entry_event_of_short procbased2 _ _ (hshort _ (by decide)),
      map_entry_event_of_short vmexit_controls _ _ (hshort _ (by decide)),
      map_entry_event_of_short vmentry_controls _ _ (hshort _ (by decide))]
    simp

/-- C11 on the longest name of the tables, "Deactivate Dual-Monitor
Treatment" (33 characters), with both answers `Yes`: the line has 64
characters and is passed whole. -/
theorem realistic_names_not_truncated_witness :
    (11 < 32 ∧ (c_str "Deactivate Dual-Monitor Treatment").length ≤ 40) ∧
    (full_line (c_str "Deactivate Dual-Monitor Treatment") (Nat.testBit 0x800 11)
      (!Nat.testBit 0 11)).length = 64 ∧
    ∃ msg1, report_entry ⟨11, some "Deactivate Dual-Monitor Treatment"⟩ 0 0x800
        (memset_zero MAX_MSG)
      = .ok (msg1, .printk none
        "  Deactivate Dual-Monitor Treatment: Can set=Yes, Can clear=Yes\n" []) :=
  ⟨⟨by decide, by decide⟩, by decide,
    (realistic_names_not_truncated (fun _ => 0)
      ⟨11, some "Deactivate Dual-Monitor Treatment"⟩ "Deactivate Dual-Monitor Treatment"
      0 0x800 (memset_zero MAX_MSG) (by decide) rfl (by decide)).2.2.1⟩

/-- C12. `report_capability` is a function of `(cap, len, lo, hi)` alone.
The `printk` call that the loop body makes for an entry depends only on the
entry, `lo` and `hi`, not on what the reused buffer `msg` holds when the body
starts (the line of the entry before, or the zeros of the `memset`); so the
calls of the whole loop are the same from any buffer, and a call of
`report_capability` emits the same line sequence whatever its buffer held
before the `memset`. The line of an entry is given by the entry, `lo` and
`hi` in closed form. -/
theorem report_capability_pure (cap : List capability_info) (len lo hi : Nat) :
    (∀ (c : capability_info) (msg msg2 : List Char),
      (report_entry c lo hi msg).map Prod.snd = (report_entry c lo hi msg2).map Prod.snd) ∧
    (∀ (fuel i : Nat) (msg msg2 : List Char),
      report_loop cap len lo hi fuel i msg = report_loop cap len lo hi fuel i msg2) ∧
    (∀ msg : List Char,
      report_loop cap len lo hi 257 0 msg = report_capability cap len lo hi) ∧
    (∀ (c : capability_info) (msg : List Char),
      (report_entry c lo hi msg).map Prod.snd
        = .ok (if c.bit < 32 then entry_event c lo hi
          else entry_event (mod32_entry c) lo hi)) := by
  refine ⟨fun c msg msg2 => report_entry_event_indep c lo hi msg msg2,
    report_loop_indep cap len lo hi,
    fun msg => report_loop_indep cap len lo hi 257 0 msg (memset_zero MAX_MSG), ?_⟩
  intro c msg
  by_cases hb : c.bit < 32
  · rw [if_pos hb, report_entry_of_lt c lo hi msg hb]; rfl
  · rw [if_neg hb, report_entry_eq c lo hi msg]; rfl

/-- C13. `init_module` returns 0 for every state of the capability
registers, after the start banner and then the trace of exactly one pass of
`detect_vmx_features`: 46 lines in all. `cleanup_module` emits exactly one
line, the farewell "CMPE 283 Assignment 1 Module Exits". -/
theorem module_entry_and_exit (regs : Nat → Nat) :
    (∃ evs, detect_vmx_features regs = .ok evs ∧
      init_module regs
        = .ok (0, .printk (some 6) "CMPE 283 Assignment 1 Module Start\n" [] :: evs) ∧
      (printk_events
        (.printk (some 6) "CMPE 283 Assignment 1 Module Start\n" [] :: evs)).length = 46 ∧
      (printk_events evs).length = 45 ∧
      rdmsr_events evs = [0x481, 0x482, 0x48B, 0x483, 0x484]) ∧
    (Event.printk (some 6) "CMPE 283 Assignment 1 Module Start\n" []).text
      = some (.ok "CMPE 283 Assignment 1 Module Start\n") ∧
    cleanup_module = [.printk (some 6) "CMPE 283 Assignment 1 Module Exits\n" []] ∧
    cleanup_module.length = 1 ∧
    cleanup_module.map Event.text = [some (.ok "CMPE 283 Assignment 1 Module Exits\n")] := by
  have l1 : pinbased.length = 5 := by decide
  have l2 : procbased.length = 6 := by decide
  have l3 : procbased2.length = 9 := by decide
  have l4 : vmexit_controls.length = 11 := by decide
  have l5 : vmentry_controls.length = 9 := by decide
  have hd := detect_vmx_features_eq regs
  refine ⟨⟨_, hd, ?_, ?_, ?_, ?_⟩, by rfl, by rfl, by rfl, by rfl⟩
  · simp only [init_module, hd]
  · simp only [printk_events, List.filter_append, List.filter_cons, Event.is_printk,
      header_event, filter_is_printk_map_entry]
    simp [l1, l2, l3, l4, l5]
  · simp only [printk_events, List.filter_append, List.filter_cons, Event.is_printk,
      header_event, filter_is_printk_map_entry]
    simp [l1, l2, l3, l4, l5]
  · simp only [rdmsr_events, List.filterMap_append, List.filterMap_cons, Event.msr,
      header_event, filterMap_msr_map_entry]
    simp

/-- C14. The baseline silently truncates over-long lines. For every entry
(any name, of `n` characters), bit index in [0,31], `lo` and `hi`, with `L`
the length of the full line
`"  <name>: Can set=<Yes|No>, Can clear=<Yes|No>\n"`:
`L` is `n + 29`, `n + 30` or `n + 31`; the call runs on without error and
the text passed to `printk` is the first `min L 78` characters of the full
line; it has `min L 78` characters, so at most 78; it is the full line iff
`L <= 78`; and for every name of 50 or more characters it is the first 78
characters of the line without its newline, which is dropped. -/
theorem long_lines_truncated (e : capability_info) (lo hi : Nat) (msg : List Char)
    (hbit : e.bit < 32) :
    ((full_line (fmt_s e.name) (hi.testBit e.bit) (!lo.testBit e.bit)).length
        = (fmt_s e.name).length + 29 ∨
      (full_line (fmt_s e.name) (hi.testBit e.bit) (!lo.testBit e.bit)).length
        = (fmt_s e.name).length + 30 ∨
      (full_line (fmt_s e.name) (hi.testBit e.bit) (!lo.testBit e.bit)).length
        = (fmt_s e.name).length + 31) ∧
    ∃ msg1 text, report_entry e lo hi msg = .ok (msg1, .printk none text []) ∧
      text = String.mk
        ((full_line (fmt_s e.name) (hi.testBit e.bit) (!lo.testBit e.bit)).data.take
          (min (full_line (fmt_s e.name) (hi.testBit e.bit)
            (!lo.testBit e.bit)).length 78)) ∧
      text.length
        = min (full_line (fmt_s e.name) (hi.testBit e.bit) (!lo.testBit e.bit)).length 78 ∧
      text.length ≤ 78 ∧
      (text = full_line (fmt_s e.name) (hi.testBit e.bit) (!lo.testBit e.bit) ↔
        (full_line (fmt_s e.name) (hi.testBit e.bit) (!lo.testBit e.bit)).length ≤ 78) ∧
      (50 ≤ (fmt_s e.name).length →
        text = String.mk
          ((bare_line (fmt_s e.name) (hi.testBit e.bit) (!lo.testBit e.bit)).take 78) ∧
        text.length = 78 ∧
        text ≠ full_line (fmt_s e.name) (hi.testBit e.bit) (!lo.testBit e.bit)) := by
  have hr := report_entry_of_lt e lo hi msg hbit
  simp only [entry_event, entry_text] at hr
  have hL := format_line_length_eq e.name (hi.testBit e.bit) (!lo.testBit e.bit)
  have hs := yes_no_length (hi.testBit e.bit)
  have hc := yes_no_length (!lo.testBit e.bit)
  have hfull : full_line (fmt_s e.name) (hi.testBit e.bit) (!lo.testBit e.bit)
      = String.mk (format_line e.name (hi.testBit e.bit) (!lo.testBit e.bit)) := rfl
  rw [hfull]
  simp only [String.length_mk]
  generalize hF : format_line e.name (hi.testBit e.bit) (!lo.testBit e.bit) = F at hr hL
  have hbare : F = bare_line (fmt_s e.name) (hi.testBit e.bit) (!lo.testBit e.bit)
      ++ "\n".data := by rw [← hF]; rfl
  have hbl : (bare_line (fmt_s e.name) (hi.testBit e.bit) (!lo.testBit e.bit)).length + 1
      = F.length := by rw [hbare]; simp
  refine ⟨by omega, _, String.mk (F.take 78), hr, ?_, ?_, ?_, ?_, ?_⟩
  · by_cases h : F.length ≤ 78
    · rw [Nat.min_eq_left h, List.take_of_length_le h, List.take_of_length_le (Nat.le_refl _)]
    · rw [Nat.min_eq_right (by omega)]
  · simp only [String.length_mk, List.length_take]; exact Nat.min_comm _ _
  · simp only [String.length_mk, List.length_take]; exact Nat.min_le_left _ _
  · constructor
    · intro h
      have h2 := congrArg String.length h
      simp only [String.length_mk, List.length_take] at h2
      omega
    · intro h
      rw [List.take_of_length_le h]
  · intro h50
    refine ⟨?_, ?_, ?_⟩
    · rw [hbare, List.take_append_of_le_length (by omega)]
    · simp [List.length_take]; omega
    · intro h
      have h2 := congrArg String.length h
      simp only [String.length_mk, List.length_take] at h2
      omega

/-- C14 on a name of 60 characters with `lo = 0`, `hi = 1`: the full line
has 91 characters and the text passed is its first 78, ending in
`Can set=Yes, C`. -/
theorem long_lines_truncated_witness :
    (0 < 32) ∧
    (full_line (fmt_s (some "A control whose description has sixty characters in its name"))
      (Nat.testBit 1 0) (!Nat.testBit 0 0)).length = 91 ∧
    ∃ msg1 text,
      report_entry ⟨0, some "A control whose description has sixty characters in its name"⟩
        0 1 (memset_zero MAX_MSG) = .ok (msg1, .printk none text []) ∧
      text.length ≤ 78 ∧
      text = String.mk ((full_line
        (fmt_s (some "A control whose description has sixty characters in its name"))
        (Nat.testBit 1 0) (!Nat.testBit 0 0)).data.take 78) := by
  obtain ⟨_, msg1, text, h1, h2, _, h4, _, _⟩ := long_lines_truncated
    ⟨0, some "A control whose description has sixty characters in its name"⟩ 0 1
    (memset_zero MAX_MSG) (by decide)
  exact ⟨by decide, by decide, msg1, text, h1, h4, h2⟩

/-- C15. `detect_vmx_features` makes exactly five register reads, of the
identifiers 0x481, 0x482, 0x48B, 0x483, 0x484 in that order, one at the
head of each domain's block, and each block (read, header, feature lines) is
computed from the two halves of that domain's own register and that
domain's own table: `pinbased` with 0x481, `procbased` with 0x482,
`procbased2` with 0x48B, `vmexit_controls` with 0x483, `vmentry_controls`
with 0x484. A block depends on the registers through its own register only:
for two register assignments that agree on a domain's register, that
domain's block is the same, whatever the other registers hold. -/
theorem detect_reads_own_registers (regs regs2 : Nat → Nat) (msr : Nat) (header : String)
    (cap : List capability_info) (len : Nat) (h : regs msr = regs2 msr) :
    detect_domain regs msr header cap len = detect_domain regs2 msr header cap len ∧
    [IA32_VMX_PINBASED_CTLS, IA32_VMX_PROCBASED_CTLS, IA32_VMX_PROCBASED_CTLS2,
      IA32_VMX_EXIT_CTLS, IA32_VMX_ENTRY_CTLS] = [0x481, 0x482, 0x48B, 0x483, 0x484] ∧
    ∃ b1 b2 b3 b4 b5,
      detect_domain regs 0x481 "Pinbased Controls MSR: 0x%llx\n" pinbased 5 = .ok b1 ∧
      detect_domain regs 0x482 "Procbased Controls MSR: 0x%llx\n" procbased 6 = .ok b2 ∧
      detect_domain regs 0x48B "Procbased 2 Controls MSR: 0x%llx\n" procbased2 9 = .ok b3 ∧
      detect_domain regs 0x483 "VM exit Controls MSR: 0x%llx\n" vmexit_controls 11
        = .ok b4 ∧
      detect_domain regs 0x484 "VM Entry Controls MSR: 0x%llx\n" vmentry_controls 9
        = .ok b5 ∧
      detect_vmx_features regs = .ok (b1 ++ b2 ++ b3 ++ b4 ++ b5) ∧
      rdmsr_events (b1 ++ b2 ++ b3 ++ b4 ++ b5) = [0x481, 0x482, 0x48B, 0x483, 0x484] ∧
      b1 = .rdmsr 0x481 :: header_event "Pinbased Controls MSR: 0x%llx\n" (rdmsr regs 0x481)
        :: pinbased.map
          (fun c => entry_event c (rdmsr regs 0x481).1 (rdmsr regs 0x481).2) ∧
      b2 = .rdmsr 0x482 :: header_event "Procbased Controls MSR: 0x%llx\n" (rdmsr regs 0x482)
        :: procbased.map
          (fun c => entry_event c (rdmsr regs 0x482).1 (rdmsr regs 0x482).2) ∧
      b3 = .rdmsr 0x48B
        :: header_event "Procbased 2 Controls MSR: 0x%llx\n" (rdmsr regs 0x48B)
        :: procbased2.map
          (fun c => entry_event c (rdmsr regs 0x48B).1 (rdmsr regs 0x48B).2) ∧
      b4 = .rdmsr 0x483 :: header_event "VM exit Controls MSR: 0x%llx\n" (rdmsr regs 0x483)
        :: vmexit_controls.map
          (fun c => entry_event c (rdmsr regs 0x483).1 (rdmsr regs 0x483).2) ∧
      b5 = .rdmsr 0x484 :: header_event "VM Entry Controls MSR: 0x%llx\n" (rdmsr regs 0x484)
        :: vmentry_controls.map
          (fun c => entry_event c (rdmsr regs 0x484).1 (rdmsr regs 0x484).2) := by
  have t1 : pinbased.take 5 = pinbased := by decide
  have t2 : procbased.take 6 = procbased := by decide
  have t3 : procbased2.take 9 = procbased2 := by decide
  have t4 : vmexit_controls.take 11 = vmexit_controls := by decide
  have t5 : vmentry_controls.take 9 = vmentry_controls := by decide
  have h1 := detect_domain_eq regs 0x481
    "Pinbased Controls MSR: 0x%llx\n" pinbased 5 (by decide) (by decide) (by decide)
  have h2 := detect_domain_eq regs 0x482
    "Procbased Controls MSR: 0x%llx\n" procbased 6 (by decide) (by decide) (by decide)
  have h3 := detect_domain_eq regs 0x48B
    "Procbased 2 Controls MSR: 0x%llx\n" procbased2 9 (by decide) (by decide) (by decide)
  have h4 := detect_domain_eq regs 0x483
    "VM exit Controls MSR: 0x%llx\n" vmexit_controls 11 (by decide) (by decide) (by decide)
  have h5 := detect_domain_eq regs 0x484
    "VM Entry Controls MSR: 0x%llx\n" vmentry_controls 9 (by decide) (by decide) (by decide)
  rw [t1] at h1; rw [t2] at h2; rw [t3] at h3; rw [t4] at h4; rw [t5] at h5
  refine ⟨detect_domain_congr regs regs2 msr header cap len h, by rfl,
    _, _, _, _, _, h1, h2, h3, h4, h5, detect_vmx_features_eq regs, ?_,
    rfl, rfl, rfl, rfl, rfl⟩
  simp only [rdmsr_events, List.filterMap_append, List.filterMap_cons, Event.msr,
    header_event, filterMap_msr_map_entry]
  simp

/-- C15 on two register assignments that agree on 0x481 only: the pin-based
blocks are the same. -/
theorem detect_reads_own_registers_witness :
    ((fun _ => 0x12000000ff : Nat → Nat) 0x481
      = (fun m => if m = 0x481 then 0x12000000ff else 0 : Nat → Nat) 0x481) ∧
    detect_domain (fun _ => 0x12000000ff) 0x481 "Pinbased Controls MSR: 0x%llx\n" pinbased 5
      = detect_domain (fun m => if m = 0x481 then 0x12000000ff else 0) 0x481
        "Pinbased Controls MSR: 0x%llx\n" pinbased 5 :=
  ⟨by decide,
    (detect_reads_own_registers (fun _ => 0x12000000ff)
      (fun m => if m = 0x481 then 0x12000000ff else 0) 0x481
      "Pinbased Controls MSR: 0x%llx\n" pinbased 5 (by decide)).1⟩

/-- C16. In each of the five calls of `report_capability` made by
`detect_vmx_features` the `len` argument (5, 6, 9, 11, 9) is the length of
the array passed with it, so every access `cap[i]` with `i < len` is within
the array and every entry is visited: for all `lo`, `hi` the call ends
without an indexing fault, with one line for every entry of the whole table,
and `detect_vmx_features` never ends in an indexing fault. -/
theorem len_arguments_match_tables (regs : Nat → Nat) (lo hi : Nat) :
    pinbased.length = 5 ∧ procbased.length = 6 ∧ procbased2.length = 9 ∧
    vmexit_controls.length = 11 ∧ vmentry_controls.length = 9 ∧
    report_capability pinbased 5 lo hi
      = .ok (pinbased.map (fun c => entry_event c lo hi)) ∧
    report_capability procbased 6 lo hi
      = .ok (procbased.map (fun c => entry_event c lo hi)) ∧
    report_capability procbased2 9 lo hi
      = .ok (procbased2.map (fun c => entry_event c lo hi)) ∧
    report_capability vmexit_controls 11 lo hi
      = .ok (vmexit_controls.map (fun c => entry_event c lo hi)) ∧
    report_capability vmentry_controls 9 lo hi
      = .ok (vmentry_controls.map (fun c => entry_event c lo hi)) ∧
    (∀ j, report_capability pinbased 5 lo hi ≠ .error (.out_of_bounds j) ∧
      report_capability procbased 6 lo hi ≠ .error (.out_of_bounds j) ∧
      report_capability procbased2 9 lo hi ≠ .error (.out_of_bounds j) ∧
      report_capability vmexit_controls 11 lo hi ≠ .error (.out_of_bounds j) ∧
      report_capability vmentry_controls 9 lo hi ≠ .error (.out_of_bounds j) ∧
      detect_vmx_features regs ≠ .error (.out_of_bounds j)) ∧
    (∃ evs, detect_vmx_features regs = .ok evs ∧
      (evs.filter Event.is_report).length
        = pinbased.length + procbased.length + procbased2.length
          + vmexit_controls.length + vmentry_controls.length) := by
  have t1 : pinbased.take 5 = pinbased := by decide
  have t2 : procbased.take 6 = procbased := by decide
  have t3 : procbased2.take 9 = procbased2 := by decide
  have t4 : vmexit_controls.take 11 = vmexit_controls := by decide
  have t5 : vmentry_controls.take 9 = vmentry_controls := by decide
  have h1 := report_capability_ok pinbased 5 lo hi (by decide) (by decide) (by decide)
  have h2 := report_capability_ok procbased 6 lo hi (by decide) (by decide) (by decide)
  have h3 := report_capability_ok procbased2 9 lo hi (by decide) (by decide) (by decide)
  have h4 := report_capability_ok vmexit_controls 11 lo hi (by decide) (by decide)
    (by decide)
  have h5 := report_capability_ok vmentry_controls 9 lo hi (by decide) (by decide)
    (by decide)
  rw [t1] at h1; rw [t2] at h2; rw [t3] at h3; rw [t4] at h4; rw [t5] at h5
  obtain ⟨evs, hd⟩ : ∃ evs, detect_vmx_features regs = .ok evs :=
    ⟨_, detect_vmx_features_eq regs⟩
  refine ⟨by decide, by decide, by decide, by decide, by decide, h1, h2, h3, h4, h5, ?_,
    evs, hd, ?_⟩
  · intro j
    rw [h1, h2, h3, h4, h5, hd]
    refine ⟨?_, ?_, ?_, ?_, ?_, ?_⟩ <;> intro hc <;> cases hc
  · rw [detect_report_events regs evs hd]
    simp only [List.length_append, List.length_map]

/-- C17. `report_capability` passes the formatted line to `printk` as the
format string, with no argument. None of the 40 names of the five static
tables contains a percent sign, and neither do the fixed text, `Yes` and
`No`; so for every state of the registers each of the 40 feature lines of
`detect_vmx_features` is a format string without a conversion specifier and
is logged as it is. All 45 lines, the headers included, are logged without
fault and have no percent sign in them. -/
theorem feature_lines_verbatim (regs : Nat → Nat) :
    (∀ t ∈ all_tables, ∀ c ∈ t, ∃ n, c.name = some n ∧ '%' ∉ n.data) ∧
    all_tables.flatten.length = 40 ∧
    '%' ∉ "  ".data ∧ '%' ∉ ": Can set=".data ∧ '%' ∉ ", Can clear=".data ∧
    '%' ∉ "\n".data ∧ '%' ∉ "Yes".data ∧ '%' ∉ "No".data ∧
    ∃ evs, detect_vmx_features regs = .ok evs ∧
      (evs.filter Event.is_report).length = 40 ∧
      (∀ ev ∈ evs.filter Event.is_report,
        ∃ fmt, ev = .printk none fmt [] ∧ '%' ∉ fmt.data ∧ ev.text = some (.ok fmt)) ∧
      (printk_events evs).length = 45 ∧
      (∀ ev ∈ printk_events evs, ∃ t, ev.text = some (.ok t) ∧ '%' ∉ t.data) := by
  obtain ⟨evs, hd⟩ : ∃ evs, detect_vmx_features regs = .ok evs :=
    ⟨_, detect_vmx_features_eq regs⟩
  have hrep := detect_report_events regs evs hd
  have hpk := detect_printk_events regs evs hd
  have hnp := tables_names_no_percent
  have e1 : ∀ lo hi, ∀ c ∈ pinbased, '%' ∉ (entry_text c lo hi).data ∧
      (entry_event c lo hi).text = some (.ok (entry_text c lo hi)) := fun lo hi c hc =>
    entry_event_verbatim c lo hi (hnp pinbased (by decide) c hc)
  have e2 : ∀ lo hi, ∀ c ∈ procbased, '%' ∉ (entry_text c lo hi).data ∧
      (entry_event c lo hi).text = some (.ok (entry_text c lo hi)) := fun lo hi c hc =>
    entry_event_verbatim c lo hi (hnp procbased (by decide) c hc)
  have e3 : ∀ lo hi, ∀ c ∈ procbased2, '%' ∉ (entry_text c lo hi).data ∧
      (entry_event c lo hi).text = some (.ok (entry_text c lo hi)) := fun lo hi c hc =>
    entry_event_verbatim c lo hi (hnp procbased2 (by decide) c hc)
  have e4 : ∀ lo hi, ∀ c ∈ vmexit_controls, '%' ∉ (entry_text c lo hi).data ∧
      (entry_event c lo hi).text = some (.ok (entry_text c lo hi)) := fun lo hi c hc =>
    entry_event_verbatim c lo hi (hnp vmexit_controls (by decide) c hc)
  have e5 : ∀ lo hi, ∀ c ∈ vmentry_controls, '%' ∉ (entry_text c lo hi).data ∧
      (entry_event c lo hi).text = some (.ok (entry_text c lo hi)) := fun lo hi c hc =>
    entry_event_verbatim c lo hi (hnp vmentry_controls (by decide) c hc)
  have hentry : ∀ ev ∈ evs.filter Event.is_report,
      ∃ fmt, ev = .printk none fmt [] ∧ '%' ∉ fmt.data ∧ ev.text = some (.ok fmt) := by
    intro ev hev
    rw [hrep] at hev
    simp only [List.mem_append, List.mem_map] at hev
    rcases hev with (((⟨c, hc, rfl⟩ | ⟨c, hc, rfl⟩) | ⟨c, hc, rfl⟩) | ⟨c, hc, rfl⟩)
      | ⟨c, hc, rfl⟩
    · exact ⟨_, rfl, (e1 _ _ c hc).1, (e1 _ _ c hc).2⟩
    · exact ⟨_, rfl, (e2 _ _ c hc).1, (e2 _ _ c hc).2⟩
    · exact ⟨_, rfl, (e3 _ _ c hc).1, (e3 _ _ c hc).2⟩
    · exact ⟨_, rfl, (e4 _ _ c hc).1, (e4 _ _ c hc).2⟩
    · exact ⟨_, rfl, (e5 _ _ c hc).1, (e5 _ _ c hc).2⟩
  refine ⟨by decide, by decide, by decide, by decide, by decide, by decide, by decide,
    by decide, evs, hd, ?_, hentry, ?_, ?_⟩
  · rw [hrep]
    simp only [List.length_append, List.length_map]
    decide
  · rw [hpk]
    simp only [List.length_append, List.length_cons, List.length_map]
    decide
  · intro ev hev
    rw [hpk] at hev
    simp only [List.mem_append, List.mem_cons, List.mem_map] at hev
    rcases hev with ((((rfl | ⟨c, hc, rfl⟩) | (rfl | ⟨c, hc, rfl⟩)) | (rfl | ⟨c, hc, rfl⟩))
      | (rfl | ⟨c, hc, rfl⟩)) | (rfl | ⟨c, hc, rfl⟩)
    · exact ⟨_, rfl, header_text_no_percent "Pinbased Controls MSR: 0x".data _ (by decide)⟩
    · exact ⟨_, (e1 _ _ c hc).2, (e1 _ _ c hc).1⟩
    · exact ⟨_, rfl, header_text_no_percent "Procbased Controls MSR: 0x".data _ (by decide)⟩
    · exact ⟨_, (e2 _ _ c hc).2, (e2 _ _ c hc).1⟩
    · exact ⟨_, rfl,
        header_text_no_percent "Procbased 2 Controls MSR: 0x".data _ (by decide)⟩
    · exact ⟨_, (e3 _ _ c hc).2, (e3 _ _ c hc).1⟩
    · exact ⟨_, rfl, header_text_no_percent "VM exit Controls MSR: 0x".data _ (by decide)⟩
    · exact ⟨_, (e4 _ _ c hc).2, (e4 _ _ c hc).1⟩
    · exact ⟨_, rfl, header_text_no_percent "VM Entry Controls MSR: 0x".data _ (by decide)⟩
    · exact ⟨_, (e5 _ _ c hc).2, (e5 _ _ c hc).1⟩

end Cmpe283
